import Mathlib

/-!
Shallow embedding of the client-side caching / progressive-loading / chart-data
layer of the bgs-sensor-data-snapshots dashboard, with theorems checking the
natural-language specification against the code.

Modelling conventions:
- JavaScript numbers are modelled exactly, as a sum of a finite rational and
  the non-finite values NaN / Infinity / -Infinity (`JSNum`); arithmetic the
  claims depend on only involves finite values, so exact rationals stand in
  for IEEE doubles.
- The module-level `Map` cache is an association list threaded explicitly
  through every operation; JS `Map` iteration order is insertion order, and
  `Map.set` on an existing key keeps its position, which `upsert` mirrors.
- Network I/O (`frostApiCall`) is an oracle parameter
  `String -> Except String <response>`; a thrown fetch/HTTP error is the
  `.error` case, caught at each fetcher exactly as the `try/catch` does.
- `Date.now()` is an explicit `now : Int` parameter; `new Date().toISOString()`
  is an explicit `nowIso : String` parameter.
- JS template-string rendering of a number is modelled by `natToStr`
  (base-10 decimal, the same text `${n}` produces for a natural number).
-/

/-- Model of a JavaScript number: a finite rational or one of the three
non-finite values. -/
inductive JSNum where
  | fin (q : ℚ)
  | nan
  | inf
  | neginf
deriving DecidableEq

/-- Negation of a JS number (used for the sign in string-to-number parsing). -/
def negJS : JSNum → JSNum
  | .fin q => .fin (-q)
  | .nan => .nan
  | .inf => .neginf
  | .neginf => .inf

/-- A raw observation `result` as delivered by the remote API: either a JS
number or a string (the two shapes the source handles). -/
inductive SensorValue where
  | num (x : JSNum)
  | str (s : String)
deriving DecidableEq

/-- JS `x || d` on numbers: NaN and 0 are falsy. -/
def jsOrNum (x d : JSNum) : JSNum :=
  match x with
  | .fin q => if q = 0 then d else .fin q
  | .nan => d
  | .inf => .inf
  | .neginf => .neginf

/-- JS `s || d` on an optional string: `undefined` and the empty string are
falsy. -/
def jsOrStr (s : Option String) (d : String) : String :=
  match s with
  | none => d
  | some v => if v = "" then d else v

/-- Leading decimal digits of a character list, as digit values, together with
the rest of the list. -/
def takeDigits : List Char → List ℕ × List Char
  | [] => ([], [])
  | c :: cs =>
    if c.isDigit then
      let (ds, rest) := takeDigits cs
      ((c.toNat - 48) :: ds, rest)
    else ([], c :: cs)

/-- Value of a big-endian digit list. -/
def digitsToNat (ds : List ℕ) : ℕ := ds.foldl (fun a d => a * 10 + d) 0

/-- Does the first list start with the second? -/
def startsWithChars : List Char → List Char → Bool
  | _, [] => true
  | [], _ :: _ => false
  | c :: cs, d :: ds => c = d && startsWithChars cs ds

/-- Does the first list contain the second as a contiguous run? -/
def containsChars : List Char → List Char → Bool
  | [], needle => needle.isEmpty
  | hay@(_ :: t), needle => startsWithChars hay needle || containsChars t needle

/-- JS `String.prototype.includes`. -/
def strIncludes (s sub : String) : Bool := containsChars s.toList sub.toList

/-- Model of JS `parseFloat` after an optional sign has been consumed: an
optional integer part, an optional fractional part, or the literal
`Infinity`; no digits at all parses to NaN.  (Leading whitespace and
exponent notation, which no call site in the source relies on, are outside
the model.) -/
def parseFloatCore (cs : List Char) : JSNum :=
  if startsWithChars cs "Infinity".toList then .inf
  else
    let (ip, rest) := takeDigits cs
    let fp : List ℕ :=
      match rest with
      | c :: t => if c = '.' then (takeDigits t).1 else []
      | [] => []
    if ip = [] ∧ fp = [] then .nan
    else .fin ((digitsToNat ip : ℚ) + (digitsToNat fp : ℚ) / (10 ^ fp.length : ℚ))

/-- Model of JS `parseFloat` on a string: optional sign, then `parseFloatCore`. -/
def parseF (s : String) : JSNum :=
  match s.toList with
  | [] => parseFloatCore []
  | c :: t =>
    if c = '-' then negJS (parseFloatCore t)
    else if c = '+' then parseFloatCore t
    else parseFloatCore (c :: t)

/-- Character for one decimal digit. -/
def digitChar (d : ℕ) : Char := Char.ofNat (48 + d)

/-- Little-endian base-10 digits of a natural number, with explicit fuel so
the definition is structural (any fuel at least the number itself is enough). -/
def natDigitsRev : ℕ → ℕ → List ℕ
  | 0, _ => []
  | _ + 1, 0 => []
  | fuel + 1, n + 1 => ((n + 1) % 10) :: natDigitsRev fuel ((n + 1) / 10)

/-- Model of JS number-to-string conversion for a natural number (the text a
template literal renders for it): base-10, no sign, no leading zeros. -/
def natToStr (n : ℕ) : String :=
  if n = 0 then "0" else ⟨(natDigitsRev n n).reverse.map digitChar⟩

/-- Lowercasing a string, as JS `toLowerCase` does for ASCII names. -/
def lowerStr (s : String) : String := ⟨s.toList.map Char.toLower⟩

example : parseF "3.14" = .fin (157/50) := by
  simp [parseF, parseFloatCore, takeDigits, digitsToNat, startsWithChars]; norm_num
example : parseF "abc" = .nan := by decide
example : parseF "Infinity" = .inf := by decide
example : natToStr 150 = "150" := by decide
example : strIncludes "weather station" "weather" = true := by decide

/-! ## Decoded observation records (shape produced by `getDatastreamObservations`) -/

/-- An observation after the fetcher's decode step (`useSensorData.ts`,
`getDatastreamObservations` result mapping). -/
structure Observation where
  observation_id : ℕ
  phenomenon_time : String
  result_time : String
  result : JSNum
  result_quality : String
deriving DecidableEq

/-! ## Chart data pipeline -/

/-- Modelled from the spec: `validateSensorValue` is imported from the
`bgs-api` module, whose source is not in the repository snapshot; per the
spec, a candidate numeric reading is accepted only if it is a finite number
(not NaN, not plus or minus Infinity); non-numeric strings are parsed once
and rejected if parsing fails or the result is non-finite. -/
def validateSensorValue : SensorValue → Option ℚ
  | .num (.fin q) => some q
  | .num _ => none
  | .str s =>
    match parseF s with
    | .fin q => some q
    | _ => none

/-- Modelled from the spec: `processObservationValues` is imported from the
`bgs-api` module, whose source is not in the repository snapshot; per the
spec it validates each observation's result and keeps the valid values,
dropping rejected readings (most recent first, the order the observations
arrive in). -/
def processObservationValues (l : List Observation) : List ℚ :=
  l.filterMap (fun o => validateSensorValue (.num o.result))

/-- Trend classification of `DatastreamSummary`. -/
inductive Trend where
  | up
  | down
  | neutral
deriving DecidableEq

/-- JS `values.reduce((sum, val) => sum + val, 0) / values.length`. -/
def avgList (l : List ℚ) : ℚ := l.foldl (· + ·) 0 / l.length

/-- Trend computation of `DatastreamSummary.tsx` (lines 58-68): with at least
3 values, compare the mean of `values.slice(0, 3)` (the 3 most recent, the
array being most-recent first) with the mean of `values.slice(-3)` (the 3
oldest) against the 1.02 / 0.98 multiplicative thresholds. -/
def computeTrend (values : List ℚ) : Trend :=
  if 3 ≤ values.length then
    let recentAvg := avgList (values.take 3)
    let olderAvg := avgList (values.drop (values.length - 3))
    if recentAvg > olderAvg * (102/100) then .up
    else if recentAvg < olderAvg * (98/100) then .down
    else .neutral
  else .neutral

/-- Valid values of one datastream's column in the chart window. -/
def seriesValid (vals : List (Option ℚ)) : List ℚ := vals.filterMap id

/-- JS `Math.min(...values)` over the column's valid values (0 if none, a
case the normalization never uses). -/
def seriesMin (vals : List (Option ℚ)) : ℚ :=
  match seriesValid vals with
  | [] => 0
  | v :: vs => vs.foldl min v

/-- JS `Math.max(...values)` over the column's valid values. -/
def seriesMax (vals : List (Option ℚ)) : ℚ :=
  match seriesValid vals with
  | [] => 0
  | v :: vs => vs.foldl max v

/-- Min-max rescaling of one value (`DatastreamChart`):
`range.max === range.min ? 0 : (v - min) / (max - min)`. -/
def normalizeValue (mn mx v : ℚ) : ℚ := if mx = mn then 0 else (v - mn) / (mx - mn)

/-- Modelled from the spec: the inverse rescaling named by the spec's
round-trip property (`denormalize(normalize(v), min, max) == v`); the source
has no such function, tooltips instead read the retained original value. -/
def denormalizeValue (mn mx u : ℚ) : ℚ := u * (mx - mn) + mn

/-- A chart column entry after normalization: the (possibly rescaled) value
and, when rescaling was applied, the retained original
(`normalized[dataKey + "_original"]`). -/
structure NormPoint where
  value : ℚ
  original : Option ℚ
deriving DecidableEq

/-- Per-series normalization pass of `DatastreamChart`'s chart-data memo:
compute the series min/max over its valid points, then replace each present
value by its min-max rescaling while storing the original alongside; with no
valid points the column is left untouched. -/
def normalizeSeries (vals : List (Option ℚ)) : List (Option NormPoint) :=
  match seriesValid vals with
  | [] => vals.map (Option.map (fun q => ⟨q, none⟩))
  | _ :: _ =>
    vals.map (Option.map (fun q =>
      ⟨normalizeValue (seriesMin vals) (seriesMax vals) q, some q⟩))

/-- One merged chart point: a timestamp and one optional value per
datastream, as an association list keyed by datastream id. -/
abbrev ChartPoint := String × List (ℕ × ℚ)

/-- Set a datastream field on a point (JS property assignment). -/
def setField (fields : List (ℕ × ℚ)) (k : ℕ) (v : ℚ) : List (ℕ × ℚ) :=
  if fields.any (fun p => decide (p.1 = k)) then
    fields.map (fun p => if p.1 = k then (k, v) else p)
  else fields ++ [(k, v)]

/-- Process one observation of one datastream into the merged point map
(`DatastreamChart` chart-data memo, lines 89-113): create the point for its
timestamp if absent, then set the datastream's field only when the value
validates; a rejected reading leaves the point without that field. -/
def addObs (pts : List ChartPoint) (dsId : ℕ) (o : Observation) : List ChartPoint :=
  let pts1 :=
    if pts.any (fun p => decide (p.1 = o.phenomenon_time)) then pts
    else pts ++ [(o.phenomenon_time, [])]
  match validateSensorValue (.num o.result) with
  | some v =>
    pts1.map (fun p => if p.1 = o.phenomenon_time then (p.1, setField p.2 dsId v) else p)
  | none => pts1

/-- Merge all datastreams' observations into timestamp-keyed points (the
sort by timestamp that follows in the source does not change which fields
each point carries). -/
def mergePoints (ds : List ℕ) (obs : ℕ → List Observation) : List ChartPoint :=
  ds.foldl (fun pts d => (obs d).foldl (fun pts o => addObs pts d o) pts) []

/-! ## Chart pipeline lemmas -/

lemma foldl_min_const (c : ℚ) : ∀ (l : List ℚ), (∀ x ∈ l, x = c) → ∀ a, a = c → l.foldl min a = c := by
  intro l
  induction l with
  | nil => intro _ a ha; simpa using ha
  | cons x xs ih =>
    intro h a ha
    have hx : x = c := h x (by simp)
    simp only [List.foldl_cons]
    exact ih (fun y hy => h y (by simp [hy])) _ (by simp [hx, ha])

lemma foldl_max_const (c : ℚ) : ∀ (l : List ℚ), (∀ x ∈ l, x = c) → ∀ a, a = c → l.foldl max a = c := by
  intro l
  induction l with
  | nil => intro _ a ha; simpa using ha
  | cons x xs ih =>
    intro h a ha
    have hx : x = c := h x (by simp)
    simp only [List.foldl_cons]
    exact ih (fun y hy => h y (by simp [hy])) _ (by simp [hx, ha])

lemma seriesMin_const (vals : List (Option ℚ)) (c : ℚ)
    (h : ∀ q : ℚ, some q ∈ vals → q = c) :
    ∀ v vs, seriesValid vals = v :: vs → seriesMin vals = c := by
  intro v vs hv
  have hmem : ∀ x ∈ seriesValid vals, x = c := by
    intro x hx
    rcases List.mem_filterMap.mp hx with ⟨o, ho, hox⟩
    cases o with
    | none => simp at hox
    | some q => simp at hox; exact hox ▸ h q ho
  unfold seriesMin
  rw [hv]
  exact foldl_min_const c vs (fun y hy => hmem y (by simp [hv, hy])) v (hmem v (by simp [hv]))

lemma seriesMax_const (vals : List (Option ℚ)) (c : ℚ)
    (h : ∀ q : ℚ, some q ∈ vals → q = c) :
    ∀ v vs, seriesValid vals = v :: vs → seriesMax vals = c := by
  intro v vs hv
  have hmem : ∀ x ∈ seriesValid vals, x = c := by
    intro x hx
    rcases List.mem_filterMap.mp hx with ⟨o, ho, hox⟩
    cases o with
    | none => simp at hox
    | some q => simp at hox; exact hox ▸ h q ho
  unfold seriesMax
  rw [hv]
  exact foldl_max_const c vs (fun y hy => hmem y (by simp [hv, hy])) v (hmem v (by simp [hv]))

lemma setField_mem (fields : List (ℕ × ℚ)) (k : ℕ) (v : ℚ) (k' : ℕ) (v' : ℚ)
    (h : (k', v') ∈ setField fields k v) : (k', v') ∈ fields ∨ (k' = k ∧ v' = v) := by
  unfold setField at h
  by_cases hany : fields.any (fun p => decide (p.1 = k))
  · rw [if_pos hany] at h
    rcases List.mem_map.mp h with ⟨p, hp, hpe⟩
    by_cases hk : p.1 = k
    · right
      rw [if_pos hk] at hpe
      exact ⟨(congrArg Prod.fst hpe).symm, (congrArg Prod.snd hpe).symm⟩
    · left; rw [if_neg hk] at hpe; exact hpe ▸ hp
  · rw [if_neg hany] at h
    rcases List.mem_append.mp h with h1 | h1
    · exact Or.inl h1
    · right; simp at h1; exact ⟨h1.1, h1.2⟩

/-- Every datastream field a merged chart point carries comes from some
observation of that datastream at that timestamp whose value passed
validation. -/
def PointsFrom (obs : ℕ → List Observation) (pts : List ChartPoint) : Prop :=
  ∀ t fields, (t, fields) ∈ pts → ∀ k v, (k, v) ∈ fields →
    ∃ o ∈ obs k, o.phenomenon_time = t ∧ validateSensorValue (.num o.result) = some v

lemma addObs_pointsFrom (obs : ℕ → List Observation) (d : ℕ) (o : Observation)
    (ho : o ∈ obs d) (pts : List ChartPoint) (h : PointsFrom obs pts) :
    PointsFrom obs (addObs pts d o) := by
  unfold addObs
  have h1 : PointsFrom obs
      (if pts.any (fun p => decide (p.1 = o.phenomenon_time)) then pts
       else pts ++ [(o.phenomenon_time, [])]) := by
    split
    · exact h
    · intro t fields ht k v hk
      rcases List.mem_append.mp ht with h2 | h2
      · exact h t fields h2 k v hk
      · simp at h2
        rw [h2.2] at hk
        simp at hk
  set pts1 := (if pts.any (fun p => decide (p.1 = o.phenomenon_time)) then pts
       else pts ++ [(o.phenomenon_time, [])]) with hp1
  cases hv : validateSensorValue (.num o.result) with
  | none => exact h1
  | some v0 =>
    intro t fields ht k v hk
    rcases List.mem_map.mp ht with ⟨p, hp, hpe⟩
    by_cases hpt : p.1 = o.phenomenon_time
    · rw [if_pos hpt] at hpe
      have ht' : t = p.1 := (congrArg Prod.fst hpe).symm
      have hf : fields = setField p.2 d v0 := (congrArg Prod.snd hpe).symm
      rcases setField_mem p.2 d v0 k v (hf ▸ hk) with hin | ⟨hkd, hvv⟩
      · exact ht' ▸ h1 p.1 p.2 (by rwa [← Prod.mk.eta (p := p)] at hp) k v hin
      · exact ⟨o, hkd ▸ ho, by rw [ht', hpt], by rw [hvv, hv]⟩
    · rw [if_neg hpt] at hpe
      exact h1 t fields (hpe ▸ hp) k v hk

lemma foldl_addObs_pointsFrom (obs : ℕ → List Observation) (d : ℕ) :
    ∀ (l : List Observation), (∀ o ∈ l, o ∈ obs d) →
      ∀ pts, PointsFrom obs pts →
        PointsFrom obs (l.foldl (fun pts o => addObs pts d o) pts) := by
  intro l
  induction l with
  | nil => intro _ pts h; exact h
  | cons o os ih =>
    intro hl pts h
    simp only [List.foldl_cons]
    exact ih (fun x hx => hl x (by simp [hx])) _
      (addObs_pointsFrom obs d o (hl o (by simp)) pts h)

lemma mergePoints_pointsFrom (ds : List ℕ) (obs : ℕ → List Observation) :
    PointsFrom obs (mergePoints ds obs) := by
  unfold mergePoints
  have : ∀ (l : List ℕ) pts, PointsFrom obs pts →
      PointsFrom obs (l.foldl (fun pts d => (obs d).foldl (fun pts o => addObs pts d o) pts) pts) := by
    intro l
    induction l with
    | nil => intro pts h; exact h
    | cons d rest ih =>
      intro pts h
      simp only [List.foldl_cons]
      exact ih _ (foldl_addObs_pointsFrom obs d (obs d) (fun _ hx => hx) pts h)
  exact this ds [] (by intro t fields ht k v hk; simp at ht)

lemma length_filterMap_eq_length_filter_isSome {α β : Type} (f : α → Option β) :
    ∀ l : List α, (l.filterMap f).length = (l.filter (fun a => (f a).isSome)).length := by
  intro l
  induction l with
  | nil => rfl
  | cons a as ih =>
    cases hf : f a with
    | none => simp [List.filterMap_cons, List.filter_cons, hf, ih]
    | some b => simp [List.filterMap_cons, List.filter_cons, hf, ih]

/-- C7: for every series of valid observation values (most recent first), the
trend compares the mean of the 3 most recent values with the mean of the 3
oldest: `up` exactly when the recent mean exceeds 1.02 times the older mean,
`down` exactly when it does not and the recent mean is under 0.98 times the
older mean, `neutral` otherwise — in particular at the exact 2% boundaries
(the thresholds are exclusive) and for every series with fewer than 3
values. -/
theorem trend_threshold_characterization :
    (∀ values : List ℚ, values.length < 3 → computeTrend values = .neutral)
    ∧ (∀ values : List ℚ, 3 ≤ values.length →
        (computeTrend values = .up ↔
          avgList (values.drop (values.length - 3)) * (102/100) < avgList (values.take 3)))
    ∧ (∀ values : List ℚ, 3 ≤ values.length →
        (computeTrend values = .down ↔
          (¬ avgList (values.drop (values.length - 3)) * (102/100) < avgList (values.take 3)
            ∧ avgList (values.take 3) < avgList (values.drop (values.length - 3)) * (98/100))))
    ∧ (∀ values : List ℚ, 3 ≤ values.length →
        avgList (values.take 3) = avgList (values.drop (values.length - 3)) * (102/100) →
          computeTrend values ≠ .up)
    ∧ (∀ values : List ℚ, 3 ≤ values.length →
        avgList (values.take 3) = avgList (values.drop (values.length - 3)) * (98/100) →
          computeTrend values ≠ .down) := by
  have h2 : ∀ values : List ℚ, 3 ≤ values.length →
      (computeTrend values = .up ↔
        avgList (values.drop (values.length - 3)) * (102/100) < avgList (values.take 3)) := by
    intro v h
    unfold computeTrend
    rw [if_pos h]
    dsimp only
    split_ifs with h1 h2 <;> simp [h1]
  have h3 : ∀ values : List ℚ, 3 ≤ values.length →
      (computeTrend values = .down ↔
        (¬ avgList (values.drop (values.length - 3)) * (102/100) < avgList (values.take 3)
          ∧ avgList (values.take 3) < avgList (values.drop (values.length - 3)) * (98/100))) := by
    intro v h
    unfold computeTrend
    rw [if_pos h]
    dsimp only
    split_ifs with h1 hd
    · simp [h1]
    · simp [h1, hd]
    · simp [h1, hd]
  refine ⟨?_, h2, h3, ?_, ?_⟩
  · intro v h
    unfold computeTrend
    rw [if_neg (by omega)]
  · intro v h heq hup
    have := (h2 v h).mp hup
    rw [heq] at this
    exact lt_irrefl _ this
  · intro v h heq hdn
    have := ((h3 v h).mp hdn).2
    rw [heq] at this
    exact lt_irrefl _ this

/-- Witness: a clear upward series is classified `up`, a 2-element series is
`neutral`, and a series whose recent mean is exactly 1.02 times the older
mean is not `up` (the boundary is exclusive). -/
theorem trend_threshold_characterization_witness :
    computeTrend [4, 4, 4, 1, 1, 1] = .up
    ∧ computeTrend [1, 1] = .neutral
    ∧ computeTrend [51/50, 51/50, 51/50, 1, 1, 1] ≠ .up := by
  refine ⟨?_, ?_, ?_⟩
  · exact (trend_threshold_characterization.2.1 _ (by simp)).mpr
      (by simp [avgList]; norm_num)
  · exact trend_threshold_characterization.1 _ (by simp)
  · exact trend_threshold_characterization.2.2.2.1 _ (by simp)
      (by simp [avgList]; norm_num)

/-- C8: min-max normalization replaces each valid value `v` by
`(v - min) / (max - min)` over the series' valid points (0 when
`max == min`), retaining the pre-normalization value alongside; hence for a
non-degenerate range `denormalize(normalize(v)) == v`, and for a constant
series every normalized value is 0. -/
theorem normalization_roundtrip :
    (∀ mn mx v : ℚ, mx ≠ mn → denormalizeValue mn mx (normalizeValue mn mx v) = v)
    ∧ (∀ mn v : ℚ, normalizeValue mn mn v = 0)
    ∧ (∀ (vals : List (Option ℚ)) (i : ℕ) (q : ℚ), vals.get? i = some (some q) →
        (normalizeSeries vals).get? i =
          some (some ⟨normalizeValue (seriesMin vals) (seriesMax vals) q, some q⟩))
    ∧ (∀ (vals : List (Option ℚ)) (c : ℚ), (∀ q : ℚ, some q ∈ vals → q = c) →
        ∀ np : NormPoint, some np ∈ normalizeSeries vals → np.value = 0 ∧ np.original = some c) := by
  have hdeg : ∀ mn v : ℚ, normalizeValue mn mn v = 0 := by
    intro mn v
    unfold normalizeValue
    rw [if_pos rfl]
  refine ⟨?_, hdeg, ?_, ?_⟩
  · intro mn mx v h
    have hne : mx - mn ≠ 0 := sub_ne_zero.mpr h
    unfold normalizeValue denormalizeValue
    rw [if_neg h]
    field_simp
  · intro vals i q hq
    have hmem : some q ∈ vals := List.get?_mem hq
    have hval : q ∈ seriesValid vals := List.mem_filterMap.mpr ⟨some q, hmem, rfl⟩
    cases hsv : seriesValid vals with
    | nil => rw [hsv] at hval; simp at hval
    | cons v vs =>
      simp only [normalizeSeries, hsv]
      rw [List.get?_map, hq]
      rfl
  · intro vals c hc np hmem
    cases hsv : seriesValid vals with
    | nil =>
      simp only [normalizeSeries, hsv] at hmem
      rcases List.mem_map.mp hmem with ⟨o, ho, hoe⟩
      cases o with
      | none => exact absurd hoe (by simp)
      | some q =>
        have : q ∈ seriesValid vals := List.mem_filterMap.mpr ⟨some q, ho, rfl⟩
        rw [hsv] at this
        simp at this
    | cons v vs =>
      simp only [normalizeSeries, hsv] at hmem
      rcases List.mem_map.mp hmem with ⟨o, ho, hoe⟩
      cases o with
      | none => exact absurd hoe (by simp)
      | some q =>
        have hq : q = c := hc q ho
        have hnp : (⟨normalizeValue (seriesMin vals) (seriesMax vals) q, some q⟩ : NormPoint) = np := by
          simpa using hoe
        rw [← hnp, seriesMin_const vals c hc v vs hsv, seriesMax_const vals c hc v vs hsv]
        exact ⟨hdeg c q, by rw [hq]⟩

/-- Witness: on the series `[some 1, none, some 3]` the point holding 3 is
rescaled to 1 with original 3 retained and denormalizes back to 3; on the
constant series `[some 2, some 2]` every normalized value is 0. -/
theorem normalization_roundtrip_witness :
    denormalizeValue 1 3 (normalizeValue 1 3 3) = 3
    ∧ (normalizeSeries [some 1, none, some 3]).get? 2 =
        some (some ⟨normalizeValue (seriesMin [some 1, none, some 3])
          (seriesMax [some 1, none, some 3]) 3, some 3⟩)
    ∧ (∀ np : NormPoint, some np ∈ normalizeSeries [some 2, some 2] →
        np.value = 0 ∧ np.original = some 2) := by
  refine ⟨?_, ?_, ?_⟩
  · exact normalization_roundtrip.1 1 3 3 (by norm_num)
  · exact normalization_roundtrip.2.2.1 [some 1, none, some 3] 2 3 (by rfl)
  · exact normalization_roundtrip.2.2.2 [some 2, some 2] 2
      (by intro q hq; simp at hq; exact hq)

/-- C9: a reading enters chart aggregates only if it is a finite number —
an already-finite number validates to itself, NaN and both infinities are
rejected, strings get a single numeric parse and are rejected when it fails
or is non-finite; every field of a merged chart point traces back to an
observation whose value passed validation (rejected readings contribute no
field), and the statistics value list keeps exactly the valid readings,
never substituting zero. -/
theorem validation_rejects_nonfinite :
    (∀ q : ℚ, validateSensorValue (.num (.fin q)) = some q)
    ∧ validateSensorValue (.num .nan) = none
    ∧ validateSensorValue (.num .inf) = none
    ∧ validateSensorValue (.num .neginf) = none
    ∧ validateSensorValue (.str "abc") = none
    ∧ validateSensorValue (.str "Infinity") = none
    ∧ validateSensorValue (.str "-Infinity") = none
    ∧ (∀ ds obs, PointsFrom obs (mergePoints ds obs))
    ∧ (∀ l : List Observation,
        (∀ v ∈ processObservationValues l,
          ∃ o ∈ l, validateSensorValue (.num o.result) = some v)
        ∧ (processObservationValues l).length =
            (l.filter (fun o => (validateSensorValue (.num o.result)).isSome)).length) := by
  refine ⟨fun q => rfl, rfl, rfl, rfl, by decide, by decide, by decide,
    mergePoints_pointsFrom, ?_⟩
  intro l
  constructor
  · intro v hv
    rcases List.mem_filterMap.mp hv with ⟨o, ho, hov⟩
    exact ⟨o, ho, hov⟩
  · exact length_filterMap_eq_length_filter_isSome _ l

/-- Witness: validation of the finite reading 5 returns 5 itself, and in a
merged two-observation batch (a finite 5 at `t1` and a NaN at `t2`) the field
carried at `t1` traces to the valid observation. -/
theorem validation_rejects_nonfinite_witness :
    validateSensorValue (.num (.fin 5)) = some 5
    ∧ (∃ o ∈ ([⟨1, "t1", "t1", .fin 5, "ok"⟩, ⟨2, "t2", "t2", .nan, "ok"⟩] : List Observation),
        o.phenomenon_time = "t1" ∧ validateSensorValue (.num o.result) = some 5)
    ∧ (∃ o ∈ ([⟨1, "t1", "t1", .fin 5, "ok"⟩] : List Observation),
        validateSensorValue (.num o.result) = some 5) := by
  refine ⟨validation_rejects_nonfinite.1 5, ?_, ?_⟩
  · exact validation_rejects_nonfinite.2.2.2.2.2.2.2.1 [7]
      (fun _ => [⟨1, "t1", "t1", .fin 5, "ok"⟩, ⟨2, "t2", "t2", .nan, "ok"⟩])
      "t1" [(7, 5)] (by decide) 7 5 (by decide)
  · exact (validation_rejects_nonfinite.2.2.2.2.2.2.2.2
      [⟨1, "t1", "t1", .fin 5, "ok"⟩]).1 5 (by decide)

/-! ## Response cache (`useSensorData.ts` lines 664-694) -/

/-- One cache entry: `{ data, timestamp, ttl }`. -/
structure CacheEntry (α : Type) where
  data : α
  timestamp : ℤ
  ttl : ℤ
deriving DecidableEq

/-- The module-level `apiCache` map, as an association list in insertion
order (JS `Map` iterates in insertion order). -/
abbrev Cache (κ α : Type) := List (κ × CacheEntry α)

/-- Keys of the cache in insertion order. -/
def cacheKeys {κ α : Type} (c : Cache κ α) : List κ := c.map (·.1)

/-- A JS `Map` holds each key at most once. -/
def CacheWF {κ α : Type} (c : Cache κ α) : Prop := (cacheKeys c).Nodup

/-- JS `apiCache.get(key)`. -/
def lookupEntry {κ α : Type} [DecidableEq κ] (c : Cache κ α) (k : κ) : Option (CacheEntry α) :=
  (c.find? (fun p => decide (p.1 = k))).map (·.2)

/-- JS `apiCache.delete(key)`. -/
def eraseKey {κ α : Type} [DecidableEq κ] (c : Cache κ α) (k : κ) : Cache κ α :=
  c.filter (fun p => decide (p.1 ≠ k))

/-- `getCachedData` (lines 668-675): return the entry's data while
`Date.now() - cached.timestamp < cached.ttl` holds strictly; otherwise
delete the key and return null.  Produces the returned value and the cache
as left behind. -/
def getCachedData {κ α : Type} [DecidableEq κ] (c : Cache κ α) (k : κ) (now : ℤ) :
    Option α × Cache κ α :=
  match lookupEntry c k with
  | some e => if now - e.timestamp < e.ttl then (some e.data, c) else (none, eraseKey c k)
  | none => (none, eraseKey c k)

/-- JS `apiCache.set(key, entry)`: replace in place when the key exists,
else append. -/
def upsert {κ α : Type} [DecidableEq κ] (c : Cache κ α) (k : κ) (e : CacheEntry α) : Cache κ α :=
  if c.any (fun p => decide (p.1 = k)) then
    c.map (fun p => if p.1 = k then (k, e) else p)
  else c ++ [(k, e)]

/-- `Array.from(apiCache.entries()).sort((a, b) => a[1].timestamp - b[1].timestamp)`:
stable ascending sort by stored timestamp. -/
def sortByTimestamp {κ α : Type} (c : Cache κ α) : Cache κ α :=
  c.mergeSort (fun a b => decide (a.2.timestamp ≤ b.2.timestamp))

/-- The eviction pass of `setCachedData`: delete the keys of the oldest 20
entries. -/
def evictOldest {κ α : Type} [DecidableEq κ] (c : Cache κ α) : Cache κ α :=
  ((sortByTimestamp c).take 20).foldl (fun acc p => eraseKey acc p.1) c

/-- `setCachedData` (lines 677-694): when more than 100 entries are present,
evict the oldest 20 first; then store the value with the current timestamp. -/
def setCachedData {κ α : Type} [DecidableEq κ] (c : Cache κ α) (k : κ) (d : α)
    (now ttl : ℤ) : Cache κ α :=
  let c1 := if 100 < c.length then evictOldest c else c
  upsert c1 k ⟨d, now, ttl⟩

/-! ## Cache lemmas -/

lemma lookupEntry_eq_none_of_not_mem {κ α : Type} [DecidableEq κ]
    (c : Cache κ α) (k : κ) (h : k ∉ cacheKeys c) : lookupEntry c k = none := by
  unfold lookupEntry
  rw [List.find?_eq_none.mpr]
  · rfl
  · intro p hp hpk
    exact h (List.mem_map.mpr ⟨p, hp, by simpa using hpk⟩)

lemma lookupEntry_eraseKey_self {κ α : Type} [DecidableEq κ] (c : Cache κ α) (k : κ) :
    lookupEntry (eraseKey c k) k = none := by
  apply lookupEntry_eq_none_of_not_mem
  intro hk
  rcases List.mem_map.mp hk with ⟨p, hp, hpk⟩
  have := List.of_mem_filter hp
  simp at this
  exact this hpk

lemma lookupEntry_eraseKey_ne {κ α : Type} [DecidableEq κ] (c : Cache κ α) (k k' : κ)
    (h : k' ≠ k) : lookupEntry (eraseKey c k) k' = lookupEntry c k' := by
  unfold lookupEntry eraseKey
  induction c with
  | nil => rfl
  | cons p t ih =>
    by_cases hp : p.1 = k
    · rw [List.filter_cons_of_neg (by simpa using hp)]
      rw [List.find?_cons_of_neg _
        (by simp only [decide_eq_true_eq]; exact fun he => h (he.symm.trans hp))]
      exact ih
    · rw [List.filter_cons_of_pos (by simpa using hp)]
      by_cases hpk : p.1 = k'
      · rw [List.find?_cons_of_pos _ (by simpa using hpk),
          List.find?_cons_of_pos _ (by simpa using hpk)]
      · rw [List.find?_cons_of_neg _ (by simpa using hpk),
          List.find?_cons_of_neg _ (by simpa using hpk)]
        exact ih

lemma any_key_eq_false_iff {κ α : Type} [DecidableEq κ] (c : Cache κ α) (k : κ) :
    c.any (fun p => decide (p.1 = k)) = false ↔ k ∉ cacheKeys c := by
  rw [List.any_eq_false]
  constructor
  · intro h hk
    rcases List.mem_map.mp hk with ⟨p, hp, hpk⟩
    exact h p hp (by simpa using hpk)
  · intro h p hp
    simp only [decide_eq_true_eq]
    intro hpk
    exact h (List.mem_map.mpr ⟨p, hp, hpk⟩)

lemma find_map_replace {κ α : Type} [DecidableEq κ] (c : Cache κ α) (k : κ)
    (e : CacheEntry α) (h : k ∈ cacheKeys c) :
    (c.map (fun p => if p.1 = k then (k, e) else p)).find? (fun p => decide (p.1 = k)) =
      some (k, e) := by
  induction c with
  | nil => simp [cacheKeys] at h
  | cons p t ih =>
    rw [List.map_cons]
    by_cases hpk : p.1 = k
    · rw [if_pos hpk, List.find?_cons_of_pos _ (by simp)]
    · rw [if_neg hpk, List.find?_cons_of_neg _ (by simpa using hpk)]
      apply ih
      rcases List.mem_cons.mp h with he | ht
      · exact absurd he.symm hpk
      · exact ht

lemma find_map_replace_ne {κ α : Type} [DecidableEq κ] (c : Cache κ α) (k k' : κ)
    (e : CacheEntry α) (h : k' ≠ k) :
    (c.map (fun p => if p.1 = k then (k, e) else p)).find? (fun p => decide (p.1 = k')) =
      c.find? (fun p => decide (p.1 = k')) := by
  induction c with
  | nil => rfl
  | cons p t ih =>
    rw [List.map_cons]
    by_cases hpk' : p.1 = k'
    · have hpk : ¬ p.1 = k := fun he => h (hpk'.symm.trans he)
      rw [if_neg hpk, List.find?_cons_of_pos _ (by simpa using hpk'),
        List.find?_cons_of_pos _ (by simpa using hpk')]
    · by_cases hpk : p.1 = k
      · rw [if_pos hpk, List.find?_cons_of_neg _
          (by simp only [decide_eq_true_eq]; exact fun he => h he.symm),
          List.find?_cons_of_neg _ (by simpa using hpk')]
        exact ih
      · rw [if_neg hpk, List.find?_cons_of_neg _ (by simpa using hpk'),
          List.find?_cons_of_neg _ (by simpa using hpk')]
        exact ih

lemma lookupEntry_upsert_self {κ α : Type} [DecidableEq κ] (c : Cache κ α) (k : κ)
    (e : CacheEntry α) : lookupEntry (upsert c k e) k = some e := by
  unfold upsert
  by_cases hany : c.any (fun p => decide (p.1 = k)) = true
  · rw [if_pos hany]
    rcases List.any_eq_true.mp hany with ⟨p0, hp0, hp0k⟩
    unfold lookupEntry
    rw [find_map_replace c k e
      (List.mem_map.mpr ⟨p0, hp0, by simpa using hp0k⟩)]
    rfl
  · rw [if_neg hany]
    unfold lookupEntry
    rw [List.find?_append, List.find?_eq_none.mpr, Option.none_or]
    · simp
    · intro p hp
      have := (any_key_eq_false_iff c k).mp (Bool.eq_false_iff.mpr hany)
      simp only [decide_eq_true_eq]
      intro hpk
      exact this (List.mem_map.mpr ⟨p, hp, hpk⟩)

lemma lookupEntry_upsert_ne {κ α : Type} [DecidableEq κ] (c : Cache κ α) (k k' : κ)
    (e : CacheEntry α) (h : k' ≠ k) : lookupEntry (upsert c k e) k' = lookupEntry c k' := by
  unfold upsert
  split
  · unfold lookupEntry
    rw [find_map_replace_ne c k k' e h]
  · unfold lookupEntry
    rw [List.find?_append, List.find?_cons_of_neg _
      (by simp only [decide_eq_true_eq]; exact fun he => h he.symm),
      List.find?_nil, Option.or_none]

lemma eraseKey_eq_of_not_mem {κ α : Type} [DecidableEq κ] (c : Cache κ α) (k : κ)
    (h : k ∉ cacheKeys c) : eraseKey c k = c := by
  apply List.filter_eq_self.mpr
  intro p hp
  simp only [decide_eq_true_eq]
  intro hpk
  exact h (List.mem_map.mpr ⟨p, hp, hpk⟩)

lemma length_eraseKey_of_mem {κ α : Type} [DecidableEq κ] (c : Cache κ α) (k : κ)
    (hwf : CacheWF c) (hk : k ∈ cacheKeys c) : (eraseKey c k).length + 1 = c.length := by
  induction c with
  | nil => simp [cacheKeys] at hk
  | cons p t ih =>
    have hwf2 : p.1 ∉ List.map (fun x => x.1) t ∧ (List.map (fun x => x.1) t).Nodup := by
      simpa [CacheWF, cacheKeys] using hwf
    have hk2 : k = p.1 ∨ k ∈ List.map (fun x => x.1) t :=
      List.mem_cons.mp (show k ∈ p.1 :: List.map (fun x => x.1) t from hk)
    by_cases hp : p.1 = k
    · have hnt : k ∉ cacheKeys t := fun hmem => hwf2.1 (hp ▸ hmem)
      unfold eraseKey
      rw [List.filter_cons_of_neg (by simpa using hp)]
      have he : eraseKey t k = t := eraseKey_eq_of_not_mem t k hnt
      unfold eraseKey at he
      rw [he]
      simp
    · have hkt : k ∈ cacheKeys t := by
        rcases hk2 with he | ht
        · exact absurd he.symm hp
        · exact ht
      unfold eraseKey
      rw [List.filter_cons_of_pos (by simpa using hp)]
      have hlen := ih hwf2.2 hkt
      unfold eraseKey at hlen
      simp only [List.length_cons]
      omega

lemma cacheKeys_eraseKey_sublist {κ α : Type} [DecidableEq κ] (c : Cache κ α) (k : κ) :
    List.Sublist (cacheKeys (eraseKey c k)) (cacheKeys c) :=
  List.Sublist.map _ (List.filter_sublist c)

lemma CacheWF_eraseKey {κ α : Type} [DecidableEq κ] (c : Cache κ α) (k : κ)
    (hwf : CacheWF c) : CacheWF (eraseKey c k) :=
  List.Nodup.sublist (cacheKeys_eraseKey_sublist c k) hwf

lemma mem_cacheKeys_eraseKey {κ α : Type} [DecidableEq κ] (c : Cache κ α) (k k' : κ)
    (h : k' ∈ cacheKeys c) (hne : k' ≠ k) : k' ∈ cacheKeys (eraseKey c k) := by
  rcases List.mem_map.mp h with ⟨p, hp, hpk⟩
  exact List.mem_map.mpr ⟨p, List.mem_filter.mpr ⟨hp, by simp [hpk, hne]⟩, hpk⟩

lemma foldl_erase_eq_filter {κ α : Type} [DecidableEq κ] :
    ∀ (ps : List (κ × CacheEntry α)) (c : Cache κ α),
      ps.foldl (fun acc p => eraseKey acc p.1) c =
        c.filter (fun q => decide (q.1 ∉ ps.map (·.1))) := by
  intro ps
  induction ps with
  | nil => intro c; simp
  | cons p ps ih =>
    intro c
    rw [List.foldl_cons, ih (eraseKey c p.1)]
    unfold eraseKey
    rw [List.filter_filter]
    apply List.filter_congr
    intro q _
    by_cases h1 : q.1 = p.1 <;> by_cases h2 : q.1 ∈ List.map (fun x => x.1) ps <;>
      simp [h1, h2]

lemma length_foldl_erase {κ α : Type} [DecidableEq κ] :
    ∀ (ps : List (κ × CacheEntry α)) (c : Cache κ α), CacheWF c →
      (ps.map (·.1)).Nodup → (∀ p ∈ ps, p.1 ∈ cacheKeys c) →
      (ps.foldl (fun acc p => eraseKey acc p.1) c).length + ps.length = c.length := by
  intro ps
  induction ps with
  | nil => intro c _ _ _; simp
  | cons p ps ih =>
    intro c hwf hnd hmem
    rw [List.foldl_cons]
    have hnd2 : p.1 ∉ List.map (fun x => x.1) ps ∧ (List.map (fun x => x.1) ps).Nodup := by
      simpa using hnd
    have h1 := length_eraseKey_of_mem c p.1 hwf (hmem p (by simp))
    have h2 := ih (eraseKey c p.1) (CacheWF_eraseKey c p.1 hwf) hnd2.2 ?_
    · simp only [List.length_cons]
      omega
    · intro r hr
      apply mem_cacheKeys_eraseKey c p.1 r.1 (hmem r (by simp [hr]))
      intro he
      exact hnd2.1 (he ▸ List.mem_map.mpr ⟨r, hr, rfl⟩)

lemma CacheWF_foldl_erase {κ α : Type} [DecidableEq κ]
    (ps : List (κ × CacheEntry α)) (c : Cache κ α) (hwf : CacheWF c) :
    CacheWF (ps.foldl (fun acc p => eraseKey acc p.1) c) := by
  rw [foldl_erase_eq_filter]
  exact List.Nodup.sublist (List.Sublist.map _ (List.filter_sublist c)) hwf

lemma sortByTimestamp_perm {κ α : Type} (c : Cache κ α) :
    List.Perm (sortByTimestamp c) c :=
  List.mergeSort_perm c _

lemma evictOldest_length {κ α : Type} [DecidableEq κ] (c : Cache κ α)
    (hwf : CacheWF c) (h : 100 < c.length) :
    (evictOldest c).length + 20 = c.length := by
  unfold evictOldest
  have hperm := sortByTimestamp_perm c
  have hlen : (sortByTimestamp c).length = c.length := hperm.length_eq
  have hwf2 : (c.map (fun p => p.1)).Nodup := hwf
  have hkeysnd : ((sortByTimestamp c).map (fun p => p.1)).Nodup :=
    (List.Perm.nodup_iff (List.Perm.map (fun p => p.1) hperm)).mpr hwf2
  have htake : (((sortByTimestamp c).take 20).map (fun p => p.1)).Nodup :=
    List.Nodup.sublist (List.Sublist.map _ (List.take_sublist 20 _)) hkeysnd
  have hlen20 : ((sortByTimestamp c).take 20).length = 20 := by
    rw [List.length_take]
    omega
  have := length_foldl_erase ((sortByTimestamp c).take 20) c hwf htake ?_
  · omega
  · intro p hp
    exact List.mem_map.mpr ⟨p, hperm.mem_iff.mp (List.mem_of_mem_take hp), rfl⟩

lemma CacheWF_evictOldest {κ α : Type} [DecidableEq κ] (c : Cache κ α)
    (hwf : CacheWF c) : CacheWF (evictOldest c) :=
  CacheWF_foldl_erase _ c hwf

lemma cacheKeys_evictOldest_subset {κ α : Type} [DecidableEq κ] (c : Cache κ α) (k : κ)
    (h : k ∈ cacheKeys (evictOldest c)) : k ∈ cacheKeys c := by
  unfold evictOldest at h
  rw [foldl_erase_eq_filter] at h
  rcases List.mem_map.mp h with ⟨p, hp, hpk⟩
  exact List.mem_map.mpr ⟨p, List.mem_of_mem_filter hp, hpk⟩

lemma lookupEntry_evictOldest_of_mem_take {κ α : Type} [DecidableEq κ]
    (c : Cache κ α) (p : κ × CacheEntry α) (hp : p ∈ (sortByTimestamp c).take 20) :
    lookupEntry (evictOldest c) p.1 = none := by
  apply lookupEntry_eq_none_of_not_mem
  intro hk
  unfold evictOldest at hk
  rw [foldl_erase_eq_filter] at hk
  rcases List.mem_map.mp hk with ⟨q, hq, hqk⟩
  have := List.of_mem_filter hq
  simp only [decide_eq_true_eq] at this
  exact this (hqk ▸ List.mem_map.mpr ⟨p, hp, rfl⟩)

lemma length_upsert_fresh {κ α : Type} [DecidableEq κ] (c : Cache κ α) (k : κ)
    (e : CacheEntry α) (hk : k ∉ cacheKeys c) : (upsert c k e).length = c.length + 1 := by
  unfold upsert
  have hany : c.any (fun p => decide (p.1 = k)) = false := (any_key_eq_false_iff c k).mpr hk
  rw [hany]
  simp

lemma cacheKeys_upsert_of_any {κ α : Type} [DecidableEq κ] (c : Cache κ α) (k : κ)
    (e : CacheEntry α) (h : c.any (fun p => decide (p.1 = k)) = true) :
    cacheKeys (upsert c k e) = cacheKeys c := by
  unfold upsert
  rw [if_pos h]
  unfold cacheKeys
  rw [List.map_map]
  apply List.map_congr_left
  intro p _
  by_cases hpk : p.1 = k
  · simp [hpk]
  · simp [hpk]

lemma CacheWF_upsert {κ α : Type} [DecidableEq κ] (c : Cache κ α) (k : κ)
    (e : CacheEntry α) (hwf : CacheWF c) : CacheWF (upsert c k e) := by
  by_cases hany : c.any (fun p => decide (p.1 = k)) = true
  · unfold CacheWF
    rw [cacheKeys_upsert_of_any c k e hany]
    exact hwf
  · unfold CacheWF upsert
    rw [if_neg hany]
    unfold cacheKeys
    rw [List.map_append]
    have hk : k ∉ cacheKeys c := (any_key_eq_false_iff c k).mp (Bool.eq_false_iff.mpr hany)
    simp only [List.map_cons, List.map_nil]
    rw [List.nodup_append]
    refine ⟨hwf, List.nodup_singleton k, ?_⟩
    intro a ha hb
    rw [List.mem_singleton] at hb
    exact hk (hb ▸ ha)

lemma cacheKeys_upsert_subset {κ α : Type} [DecidableEq κ] (c : Cache κ α) (k k' : κ)
    (e : CacheEntry α) (h : k' ∈ cacheKeys (upsert c k e)) :
    k' = k ∨ k' ∈ cacheKeys c := by
  by_cases hany : c.any (fun p => decide (p.1 = k)) = true
  · rw [cacheKeys_upsert_of_any c k e hany] at h
    exact Or.inr h
  · unfold upsert at h
    rw [if_neg hany] at h
    unfold cacheKeys at h
    rw [List.map_append] at h
    rcases List.mem_append.mp h with h1 | h1
    · exact Or.inr h1
    · simp at h1
      exact Or.inl h1

lemma setCachedData_length_fresh {κ α : Type} [DecidableEq κ] (c : Cache κ α) (k : κ)
    (d : α) (now ttl : ℤ) (hwf : CacheWF c) (hk : k ∉ cacheKeys c) :
    (setCachedData c k d now ttl).length =
      (if 100 < c.length then c.length - 20 else c.length) + 1 := by
  unfold setCachedData
  by_cases h : 100 < c.length
  · rw [if_pos h, if_pos h]
    have hev := evictOldest_length c hwf h
    rw [length_upsert_fresh _ k _ (fun hm => hk (cacheKeys_evictOldest_subset c k hm))]
    omega
  · rw [if_neg h, if_neg h]
    exact length_upsert_fresh c k _ hk

lemma CacheWF_setCachedData {κ α : Type} [DecidableEq κ] (c : Cache κ α) (k : κ)
    (d : α) (now ttl : ℤ) (hwf : CacheWF c) : CacheWF (setCachedData c k d now ttl) := by
  unfold setCachedData
  split
  · exact CacheWF_upsert _ k _ (CacheWF_evictOldest c hwf)
  · exact CacheWF_upsert _ k _ hwf

lemma cacheKeys_setCachedData_subset {κ α : Type} [DecidableEq κ] (c : Cache κ α)
    (k k' : κ) (d : α) (now ttl : ℤ) (h : k' ∈ cacheKeys (setCachedData c k d now ttl)) :
    k' = k ∨ k' ∈ cacheKeys c := by
  unfold setCachedData at h
  rcases cacheKeys_upsert_subset _ k k' _ h with he | hm
  · exact Or.inl he
  · right
    revert hm
    split
    · exact fun hm => cacheKeys_evictOldest_subset c k' hm
    · exact fun hm => hm

/-- Insert a batch of (key, data, timestamp, ttl) tuples one after another
through `setCachedData`, starting from a given cache. -/
def insertAll {κ α : Type} [DecidableEq κ] (c : Cache κ α)
    (items : List (κ × α × ℤ × ℤ)) : Cache κ α :=
  items.foldl (fun acc q => setCachedData acc q.1 q.2.1 q.2.2.1 q.2.2.2) c

/-- Size recurrence of repeated fresh-key inserts: each insert first drops 20
entries when more than 100 are present, then adds one. -/
def sizeRec : ℕ → ℕ → ℕ
  | 0, s => s
  | n + 1, s => sizeRec n ((if 100 < s then s - 20 else s) + 1)

lemma insertAll_length {κ α : Type} [DecidableEq κ] :
    ∀ (items : List (κ × α × ℤ × ℤ)) (c : Cache κ α), CacheWF c →
      (items.map (·.1)).Nodup → (∀ q ∈ items, q.1 ∉ cacheKeys c) →
      (insertAll c items).length = sizeRec items.length c.length := by
  intro items
  induction items with
  | nil => intro c _ _ _; rfl
  | cons q items ih =>
    intro c hwf hnd hfresh
    have hnd2 : q.1 ∉ List.map (fun x => x.1) items ∧ (List.map (fun x => x.1) items).Nodup := by
      simpa using hnd
    unfold insertAll
    rw [List.foldl_cons]
    have hstep := setCachedData_length_fresh c q.1 q.2.1 q.2.2.1 q.2.2.2 hwf (hfresh q (by simp))
    have := ih (setCachedData c q.1 q.2.1 q.2.2.1 q.2.2.2)
      (CacheWF_setCachedData c q.1 _ _ _ hwf) hnd2.2 ?_
    · unfold insertAll at this
      rw [this, hstep]
      rfl
    · intro r hr hm
      rcases cacheKeys_setCachedData_subset c q.1 r.1 _ _ _ hm with he | hmem
      · exact hnd2.1 (he ▸ List.mem_map.mpr ⟨r, hr, rfl⟩)
      · exact hfresh r (by simp [hr]) hmem

/-- C1 counterexample: with an entry stored at time 0 with TTL 100, at
`now = 100` the age equals the TTL, so the claim (`now - storedAt <= ttl`
returns the value) predicts a hit — but `getCachedData` compares strictly
and returns absent, deleting the entry. -/
theorem getCachedData_ttl_boundary_cx :
    (100 : ℤ) - (0 : ℤ) ≤ (100 : ℤ)
    ∧ lookupEntry ([("k", ⟨5, 0, 100⟩)] : Cache String ℕ) "k" = some ⟨5, 0, 100⟩
    ∧ (getCachedData ([("k", ⟨5, 0, 100⟩)] : Cache String ℕ) "k" 100).1 = none
    ∧ lookupEntry (getCachedData ([("k", ⟨5, 0, 100⟩)] : Cache String ℕ) "k" 100).2 "k"
        = none := by
  refine ⟨by norm_num, by decide, by decide, by decide⟩

/-- C1 (amended): a lookup returns the stored value iff the entry's age is
strictly below its TTL (`now - storedAt < ttlMillis`); when the age reaches
or exceeds the TTL, the lookup returns absent and the entry is removed, so a
cache never returns a value whose age reaches its declared TTL. -/
theorem getCachedData_ttl {κ α : Type} [DecidableEq κ] (c : Cache κ α) (k : κ) (now : ℤ) :
    (∀ e : CacheEntry α, lookupEntry c k = some e → now - e.timestamp < e.ttl →
      (getCachedData c k now).1 = some e.data ∧ (getCachedData c k now).2 = c)
    ∧ (∀ e : CacheEntry α, lookupEntry c k = some e → e.ttl ≤ now - e.timestamp →
      (getCachedData c k now).1 = none ∧
        lookupEntry (getCachedData c k now).2 k = none)
    ∧ (∀ v : α, (getCachedData c k now).1 = some v →
      ∃ e : CacheEntry α, lookupEntry c k = some e ∧ now - e.timestamp < e.ttl ∧ v = e.data) := by
  refine ⟨?_, ?_, ?_⟩
  · intro e he hlt
    unfold getCachedData
    rw [he]
    dsimp only
    rw [if_pos hlt]
    exact ⟨rfl, rfl⟩
  · intro e he hge
    unfold getCachedData
    rw [he]
    dsimp only
    rw [if_neg (by omega)]
    exact ⟨rfl, lookupEntry_eraseKey_self c k⟩
  · intro v hv
    unfold getCachedData at hv
    cases he : lookupEntry c k with
    | none => rw [he] at hv; simp at hv
    | some e =>
      rw [he] at hv
      dsimp only at hv
      by_cases hlt : now - e.timestamp < e.ttl
      · rw [if_pos hlt] at hv
        exact ⟨e, rfl, hlt, (Option.some.inj hv).symm⟩
      · rw [if_neg hlt] at hv
        simp at hv

/-- Witness: the spec's own test — store with TTL 100, hit at age 50, miss
at age 150 with the entry removed. -/
theorem getCachedData_ttl_witness :
    (getCachedData ([("k", ⟨5, 0, 100⟩)] : Cache String ℕ) "k" 50).1 = some 5
    ∧ (getCachedData ([("k", ⟨5, 0, 100⟩)] : Cache String ℕ) "k" 150).1 = none
    ∧ lookupEntry (getCachedData ([("k", ⟨5, 0, 100⟩)] : Cache String ℕ) "k" 150).2 "k"
        = none := by
  refine ⟨?_, ?_, ?_⟩
  · exact ((getCachedData_ttl _ "k" 50).1 ⟨5, 0, 100⟩ (by decide) (by decide)).1
  · exact ((getCachedData_ttl _ "k" 150).2.1 ⟨5, 0, 100⟩ (by decide) (by decide)).1
  · exact ((getCachedData_ttl _ "k" 150).2.1 ⟨5, 0, 100⟩ (by decide) (by decide)).2

set_option maxRecDepth 10000 in
/-- C2: before an insert into a cache holding more than 100 entries the 20
oldest-by-timestamp entries are evicted (a fresh-key insert then lands at
`size - 19`, and every evicted key other than the inserted one looks up to
nothing), an insert under the cap grows the cache by one, and inserting 150
distinct keys into an empty cache leaves at most 100 entries. -/
theorem cache_eviction_bound {κ α : Type} [DecidableEq κ] :
    (∀ (c : Cache κ α) (k : κ) (d : α) (now ttl : ℤ), CacheWF c → k ∉ cacheKeys c →
      100 < c.length → (setCachedData c k d now ttl).length = c.length - 19)
    ∧ (∀ (c : Cache κ α) (k : κ) (d : α) (now ttl : ℤ), k ∉ cacheKeys c →
      c.length ≤ 100 → (setCachedData c k d now ttl).length = c.length + 1)
    ∧ (∀ (c : Cache κ α) (k : κ) (d : α) (now ttl : ℤ), 100 < c.length →
      ∀ p ∈ (sortByTimestamp c).take 20, p.1 ≠ k →
        lookupEntry (setCachedData c k d now ttl) p.1 = none)
    ∧ (∀ items : List (κ × α × ℤ × ℤ), (items.map (·.1)).Nodup → items.length = 150 →
      (insertAll ([] : Cache κ α) items).length ≤ 100) := by
  refine ⟨?_, ?_, ?_, ?_⟩
  · intro c k d now ttl hwf hk h
    rw [setCachedData_length_fresh c k d now ttl hwf hk, if_pos h]
    omega
  · intro c k d now ttl hk h
    by_cases hwf : CacheWF c
    · rw [setCachedData_length_fresh c k d now ttl hwf hk, if_neg (by omega)]
    · unfold setCachedData
      rw [if_neg (by omega)]
      exact length_upsert_fresh c k _ hk
  · intro c k d now ttl h p hp hne
    unfold setCachedData
    rw [if_pos h, lookupEntry_upsert_ne _ k p.1 _ hne]
    exact lookupEntry_evictOldest_of_mem_take c p hp
  · intro items hnd hlen
    rw [insertAll_length items [] (by simp [CacheWF, cacheKeys]) hnd (by simp [cacheKeys])]
    rw [hlen]
    simp only [List.length_nil]
    decide

/-- A 101-entry cache with distinct keys `0..100` stored at increasing
timestamps, used to witness the eviction behavior. -/
def sampleCache101 : Cache ℕ ℕ := (List.range 101).map (fun i => (i, ⟨0, (i : ℤ), 0⟩))

set_option maxRecDepth 100000 in
/-- Witness: inserting a fresh key into the 101-entry cache lands at
`101 - 19 = 82` entries, the oldest entry's key is gone afterwards, an
insert into an empty cache yields one entry, and 150 distinct fresh keys
inserted into an empty cache leave at most 100 entries. -/
theorem cache_eviction_bound_witness :
    (setCachedData sampleCache101 101 0 0 0).length = sampleCache101.length - 19
    ∧ (setCachedData ([] : Cache ℕ ℕ) 0 0 0 0).length = ([] : Cache ℕ ℕ).length + 1
    ∧ lookupEntry (setCachedData sampleCache101 101 0 0 0) 0 = none
    ∧ (insertAll ([] : Cache ℕ ℕ) ((List.range 150).map (fun i => (i, 0, 0, 0)))).length
        ≤ 100 := by
  have hs : sortByTimestamp sampleCache101 = sampleCache101 := by
    apply List.mergeSort_of_sorted
    decide
  refine ⟨?_, ?_, ?_, ?_⟩
  · exact cache_eviction_bound.1 sampleCache101 101 0 0 0
      (by unfold CacheWF cacheKeys sampleCache101; decide) (by decide) (by decide)
  · exact cache_eviction_bound.2.1 [] 0 0 0 0 (by decide) (by decide)
  · exact cache_eviction_bound.2.2.1 sampleCache101 101 0 0 0 (by decide)
      (0, ⟨0, 0, 0⟩) (by rw [hs]; decide) (by decide)
  · exact cache_eviction_bound.2.2.2 ((List.range 150).map (fun i => (i, 0, 0, 0)))
      (by decide) (by decide)

/-! ## Entity fetchers (`useSensorData.ts` lines 696-939) -/

/-- JS template rendering of a possibly-undefined string (`${x}` prints
the text `undefined` when absent). -/
def jsStr (o : Option String) : String := o.getD "undefined"

/-- JS truthiness of a possibly-undefined string. -/
def jsTruthyStr (o : Option String) : Bool :=
  match o with
  | none => false
  | some v => decide (v ≠ "")

/-- JS `parseInt(x) || d`: the parse producing NaN — or the value 0 — falls
back to the default; the raw id is modelled as a number when parseable. -/
def parseIntOr (o : Option ℕ) (d : ℕ) : ℕ :=
  match o with
  | some n => if n = 0 then d else n
  | none => d

/-- The prefix of a string before the first occurrence of a character
(JS `s.split(c)[0]`). -/
def takeBeforeChar (c : Char) (s : String) : String :=
  ⟨s.toList.takeWhile (fun x => decide (x ≠ c))⟩

/-- A decoded sensor (the `Sensor` shape `listSensors` produces). -/
structure Sensor where
  id : ℕ
  name : String
  description : String
  category : String
  metadata_url : String
  published : Bool
  measurement_capabilities : List String
  total_datastreams : ℕ
  deployment_locations : List String
deriving DecidableEq

/-- The `ListSensorsResponse` payload. -/
structure SensorsResult where
  sensors : List Sensor
  total_count : ℕ
deriving DecidableEq

/-- A decoded location (the shape `listLocations` produces). -/
structure LocationRec where
  location_id : ℕ
  name : String
  description : String
  latitude : JSNum
  longitude : JSNum
  site : String
  sub_site : String
  active : Bool
  published : Bool
  from_date : String
  to_date : Option String
  comments : String
deriving DecidableEq

/-- The `ListLocationsResponse` payload. -/
structure LocationsResult where
  locations : List LocationRec
  total_count : ℕ
deriving DecidableEq

/-- A decoded datastream. -/
structure Datastream where
  datastream_id : ℕ
  name : String
  description : String
  unit_symbol : String
  unit_name : String
  observation_type : String
deriving DecidableEq

/-- The `GetDatastreamsResponse` payload. -/
structure DatastreamsResult where
  datastreams : List Datastream
  sensor_id : ℕ
deriving DecidableEq

/-- The `GetObservationsResponse` payload with the `isLimited` marker (absent
on the failure default). -/
structure ObsResult where
  observations : List Observation
  datastream_id : ℕ
  total_count : ℕ
  isLimited : Option Bool
deriving DecidableEq

/-- The uniform `{ success, data, error? }` envelope every fetcher returns. -/
structure BGSApiResponse (α : Type) where
  success : Bool
  data : α
  error : Option String
deriving DecidableEq

/-- The values stored in the shared `apiCache` (one variant per key family;
each key is only ever written with its own variant). -/
inductive CacheVal where
  | sensorsV (r : SensorsResult)
  | locationsV (r : LocationsResult)
  | datastreamsV (r : DatastreamsResult)
  | observationsV (r : ObsResult)
  | countV (n : ℕ)
deriving DecidableEq

/-- The unchecked generic cast of `getCachedData<ListSensorsResponse>`; the
non-sensors cases never occur because only `listSensors` writes this key. -/
def asSensors : CacheVal → SensorsResult
  | .sensorsV r => r
  | _ => ⟨[], 0⟩

/-- Cast for the `locations` key. -/
def asLocations : CacheVal → LocationsResult
  | .locationsV r => r
  | _ => ⟨[], 0⟩

/-- Cast for a `datastreams_<id>` key. -/
def asDatastreams : CacheVal → DatastreamsResult
  | .datastreamsV r => r
  | _ => ⟨[], 0⟩

/-- Cast for an `observations_...` key. -/
def asObservations : CacheVal → ObsResult
  | .observationsV r => r
  | _ => ⟨[], 0, 0, none⟩

/-- Cast for a `datastream_count_<id>` key. -/
def asCount : CacheVal → ℕ
  | .countV n => n
  | _ => 0

/-- A location embedded by `$expand=Locations` in a Things response. -/
structure FrostLocExpanded where
  name : Option String
  description : Option String
deriving DecidableEq

/-- A raw Thing record of the remote API. -/
structure FrostThing where
  iotId : Option ℕ
  name : Option String
  description : Option String
  selfLink : Option String
  locations : List FrostLocExpanded
deriving DecidableEq

/-- A `/Things?$expand=Locations` response body. -/
structure FrostThingsResp where
  value : List FrostThing
deriving DecidableEq

/-- Category tagging of `listSensors`: first keyword hit in the lowercased
name-plus-description wins, defaulting to groundwater monitoring. -/
def categoryOf (nameDesc : String) : String :=
  if strIncludes nameDesc "weather" then "Weather Station"
  else if strIncludes nameDesc "gas" then "Soil Gas Monitoring"
  else if strIncludes nameDesc "atmospheric" then "Atmospheric Monitoring"
  else if strIncludes nameDesc "dts" then "DTS Monitoring"
  else if strIncludes nameDesc "dtc" then "DTC Monitoring"
  else if strIncludes nameDesc "barometer" then "Barometer"
  else "Groundwater Monitoring"

/-- The record mapping of `listSensors` (lines 708-736): first expanded
location, keyword category, defaulted fields, placeholder zero datastream
count. -/
def decodeThing (i : ℕ) (thing : FrostThing) : Sensor :=
  let location := thing.locations.head?
  let locationName :=
    match location with
    | some loc =>
      jsStr loc.name ++ (if jsTruthyStr loc.description then " - " ++ jsStr loc.description else "")
    | none => "Unknown Location"
  let nameDesc := lowerStr (jsStr thing.name ++ " " ++ jsStr thing.description)
  { id := parseIntOr thing.iotId (i + 1)
    name := jsOrStr thing.name ("Sensor " ++ natToStr (i + 1))
    description := jsOrStr thing.description "No description available"
    category := categoryOf nameDesc
    metadata_url := jsOrStr thing.selfLink ""
    published := true
    measurement_capabilities := []
    total_datastreams := 0
    deployment_locations :=
      match location with
      | some _ => [locationName]
      | none => [] }

/-- Decode a whole Things response into sensors. -/
def decodeThings (things : List FrostThing) : List Sensor :=
  things.enum.map (fun p => decodeThing p.1 p.2)

/-- `listSensors` (lines 697-757): consult the cache under `sensors_basic`,
otherwise fetch, decode, cache for 5 minutes and return the envelope; a
thrown fetch error becomes the failure envelope with the empty default.
Returns the envelope, the cache left behind, and the number of network
calls made. -/
def listSensors (oracle : String → Except String FrostThingsResp) (now : ℤ)
    (c : Cache String CacheVal) :
    BGSApiResponse SensorsResult × Cache String CacheVal × ℕ :=
  match getCachedData c "sensors_basic" now with
  | (some v, c1) => (⟨true, asSensors v, none⟩, c1, 0)
  | (none, c1) =>
    match oracle "/Things?$expand=Locations" with
    | .error e => (⟨false, ⟨[], 0⟩, some e⟩, c1, 1)
    | .ok resp =>
      let sensors := decodeThings resp.value
      let result : SensorsResult := ⟨sensors, sensors.length⟩
      (⟨true, result, none⟩, setCachedData c1 "sensors_basic" (.sensorsV result) now 300000, 1)

/-- A raw Location record of the remote API (`loc.location.coordinates` as
an optional lon-lat pair, `loc.properties?.comments` flattened). -/
structure FrostLoc where
  iotId : Option ℕ
  name : Option String
  description : Option String
  coordinates : Option (JSNum × JSNum)
  comments : Option String
deriving DecidableEq

/-- A `/Locations` response body. -/
structure FrostLocsResp where
  value : List FrostLoc
deriving DecidableEq

/-- Site tagging of `listLocations`. -/
def siteOf (locName : String) : String :=
  if strIncludes locName "glasgow" || strIncludes locName "ggerfs" then
    "UKGEOS Glasgow Observatory"
  else if strIncludes locName "cardiff" || strIncludes locName "wales" then "BGS Cardiff"
  else if strIncludes locName "cheshire" || strIncludes locName "ince" then
    "UKGEOS Cheshire Observatory"
  else "Wallingford"

/-- The record mapping of `listLocations` (lines 770-805). -/
def decodeLoc (nowIso : String) (i : ℕ) (loc : FrostLoc) : LocationRec :=
  let coords :=
    match loc.coordinates with
    | some (lon, lat) => (jsOrNum lon (.fin 0), jsOrNum lat (.fin 0))
    | none => (JSNum.fin 0, JSNum.fin 0)
  let locName := lowerStr (jsStr loc.name ++ " " ++ jsStr loc.description)
  { location_id := parseIntOr loc.iotId (i + 1)
    name := jsOrStr loc.name ("Location " ++ natToStr (i + 1))
    description := jsOrStr loc.description "No description available"
    latitude := coords.2
    longitude := coords.1
    site := siteOf locName
    sub_site := jsOrStr loc.description "Main Site"
    active := true
    published := true
    from_date := takeBeforeChar 'T' nowIso
    to_date := none
    comments := jsOrStr loc.comments "" }

/-- `listLocations` (lines 759-826). -/
def listLocations (oracle : String → Except String FrostLocsResp) (now : ℤ)
    (nowIso : String) (c : Cache String CacheVal) :
    BGSApiResponse LocationsResult × Cache String CacheVal × ℕ :=
  match getCachedData c "locations" now with
  | (some v, c1) => (⟨true, asLocations v, none⟩, c1, 0)
  | (none, c1) =>
    match oracle "/Locations" with
    | .error e => (⟨false, ⟨[], 0⟩, some e⟩, c1, 1)
    | .ok resp =>
      let locations := (resp.value.enum.map (fun p => decodeLoc nowIso p.1 p.2))
      let result : LocationsResult := ⟨locations, locations.length⟩
      (⟨true, result, none⟩, setCachedData c1 "locations" (.locationsV result) now 300000, 1)

/-- A raw Datastream record of the remote API. -/
structure FrostDs where
  iotId : Option ℕ
  name : Option String
  description : Option String
  unitSymbol : Option String
  unitName : Option String
  observationType : Option String
deriving DecidableEq

/-- A `/Things(id)/Datastreams` response body (`@iot.count` used only by the
count fetcher). -/
structure FrostDsResp where
  value : List FrostDs
  iotCount : Option ℕ
deriving DecidableEq

/-- The record mapping of `getSensorDatastreams` (lines 839-846). -/
def decodeDs (ds : FrostDs) : Datastream :=
  { datastream_id := parseIntOr ds.iotId 0
    name := jsOrStr ds.name "Unknown"
    description := jsOrStr ds.description "No description available"
    unit_symbol := jsOrStr ds.unitSymbol ""
    unit_name := jsOrStr ds.unitName "Unknown unit"
    observation_type := jsOrStr ds.observationType "Measurement" }

/-- `getSensorDatastreams` (lines 828-867). -/
def getSensorDatastreams (oracle : String → Except String FrostDsResp) (now : ℤ)
    (c : Cache String CacheVal) (sensorId : ℕ) :
    BGSApiResponse DatastreamsResult × Cache String CacheVal × ℕ :=
  match getCachedData c ("datastreams_" ++ natToStr sensorId) now with
  | (some v, c1) => (⟨true, asDatastreams v, none⟩, c1, 0)
  | (none, c1) =>
    match oracle ("/Things(" ++ natToStr sensorId ++ ")/Datastreams") with
    | .error e => (⟨false, ⟨[], sensorId⟩, some e⟩, c1, 1)
    | .ok resp =>
      let datastreams := resp.value.map decodeDs
      let result : DatastreamsResult := ⟨datastreams, sensorId⟩
      (⟨true, result, none⟩,
        setCachedData c1 ("datastreams_" ++ natToStr sensorId) (.datastreamsV result) now 120000, 1)

/-- A raw Observation record of the remote API. -/
structure FrostObs where
  iotId : Option ℕ
  phenomenonTime : Option String
  resultTime : Option String
  result : SensorValue
  resultQuality : Option String
deriving DecidableEq

/-- A `/Datastreams(id)/Observations` response body with its `@iot.count`. -/
structure FrostObsResp where
  value : List FrostObs
  iotCount : Option ℕ
deriving DecidableEq

/-- The record mapping of `getDatastreamObservations` (lines 906-912): a
numeric result is kept as is (NaN included), a string result gets one
`parseFloat` with fallback 0. -/
def decodeObs (nowIso : String) (i : ℕ) (o : FrostObs) : Observation :=
  { observation_id := parseIntOr o.iotId (i + 1)
    phenomenon_time := jsOrStr o.phenomenonTime nowIso
    result_time := jsOrStr o.resultTime (jsOrStr o.phenomenonTime nowIso)
    result :=
      match o.result with
      | .num x => x
      | .str s => jsOrNum (parseF s) (.fin 0)
    result_quality := jsOrStr o.resultQuality "Unknown" }

/-- The request signature of `getDatastreamObservations` (line 875):
`observations_<id>_<limit>_<start|nostart>_<end|noend>`. -/
def obsCacheKey (datastreamId limit : ℕ) (startDate endDate : Option String) : String :=
  "observations_" ++ natToStr datastreamId ++ "_" ++ natToStr limit ++ "_" ++
    jsOrStr startDate "nostart" ++ "_" ++ jsOrStr endDate "noend"

/-- The query string of `getDatastreamObservations` (lines 884-901):
ascending order when a date bound is given, descending otherwise, and an
inclusive UTC day-boundary filter per given bound. -/
def obsQuery (datastreamId limit : ℕ) (startDate endDate : Option String) : String :=
  let orderBy :=
    if jsTruthyStr startDate || jsTruthyStr endDate then "phenomenonTime%20asc"
    else "phenomenonTime%20desc"
  let base := "/Datastreams(" ++ natToStr datastreamId ++ ")/Observations?$top=" ++
    natToStr limit ++ "&$count=true&$orderby=" ++ orderBy
  let filters :=
    (if jsTruthyStr startDate then
      ["phenomenonTime ge " ++ jsStr startDate ++ "T00:00:00.000Z"] else []) ++
    (if jsTruthyStr endDate then
      ["phenomenonTime le " ++ jsStr endDate ++ "T23:59:59.999Z"] else [])
  if filters.isEmpty then base
  else base ++ "&$filter=" ++ String.intercalate " and " filters

/-- `getDatastreamObservations` (lines 869-939): consult the cache under the
request signature, otherwise fetch, decode, compute the truncation marker
from `@iot.count`, cache for 1 minute; a thrown fetch error becomes the
failure envelope with the empty default. -/
def getDatastreamObservations (oracle : String → Except String FrostObsResp)
    (now : ℤ) (nowIso : String) (c : Cache String CacheVal)
    (datastreamId limit : ℕ) (startDate endDate : Option String) :
    BGSApiResponse ObsResult × Cache String CacheVal × ℕ :=
  match getCachedData c (obsCacheKey datastreamId limit startDate endDate) now with
  | (some v, c1) => (⟨true, asObservations v, none⟩, c1, 0)
  | (none, c1) =>
    match oracle (obsQuery datastreamId limit startDate endDate) with
    | .error e => (⟨false, ⟨[], datastreamId, 0, none⟩, some e⟩, c1, 1)
    | .ok resp =>
      let observations := resp.value.enum.map (fun p => decodeObs nowIso p.1 p.2)
      let totalAvailable :=
        match resp.iotCount with
        | some n => if n = 0 then observations.length else n
        | none => observations.length
      let result : ObsResult :=
        ⟨observations, datastreamId, observations.length,
          some (decide (observations.length < totalAvailable))⟩
      (⟨true, result, none⟩,
        setCachedData c1 (obsCacheKey datastreamId limit startDate endDate)
          (.observationsV result) now 60000, 1)

lemma getCachedData_eq_none_snd {κ α : Type} [DecidableEq κ] (c : Cache κ α) (k : κ)
    (now : ℤ) (c1 : Cache κ α) (h : getCachedData c k now = (none, c1)) :
    c1 = eraseKey c k := by
  unfold getCachedData at h
  cases he : lookupEntry c k with
  | none =>
    rw [he] at h
    exact (congrArg Prod.snd h).symm
  | some e =>
    rw [he] at h
    dsimp only at h
    by_cases hlt : now - e.timestamp < e.ttl
    · rw [if_pos hlt] at h
      exact absurd (congrArg Prod.fst h) (by simp)
    · rw [if_neg hlt] at h
      exact (congrArg Prod.snd h).symm

lemma getCachedData_eq_some_snd {κ α : Type} [DecidableEq κ] (c : Cache κ α) (k : κ)
    (now : ℤ) (v : α) (c1 : Cache κ α) (h : getCachedData c k now = (some v, c1)) :
    c1 = c := by
  unfold getCachedData at h
  cases he : lookupEntry c k with
  | none =>
    rw [he] at h
    exact absurd (congrArg Prod.fst h) (by simp)
  | some e =>
    rw [he] at h
    dsimp only at h
    by_cases hlt : now - e.timestamp < e.ttl
    · rw [if_pos hlt] at h
      exact (congrArg Prod.snd h).symm
    · rw [if_neg hlt] at h
      exact absurd (congrArg Prod.fst h) (by simp)

lemma getCachedData_of_lookup_none {κ α : Type} [DecidableEq κ] (c : Cache κ α) (k : κ)
    (now : ℤ) (h : lookupEntry c k = none) :
    getCachedData c k now = (none, eraseKey c k) := by
  unfold getCachedData
  rw [h]

lemma getCachedData_fresh {κ α : Type} [DecidableEq κ] (c : Cache κ α) (k : κ)
    (now : ℤ) (e : CacheEntry α) (h : lookupEntry c k = some e)
    (hlt : now - e.timestamp < e.ttl) : getCachedData c k now = (some e.data, c) := by
  unfold getCachedData
  rw [h]
  dsimp only
  rw [if_pos hlt]

lemma lookupEntry_setCachedData_self {κ α : Type} [DecidableEq κ] (c : Cache κ α)
    (k : κ) (d : α) (now ttl : ℤ) :
    lookupEntry (setCachedData c k d now ttl) k = some ⟨d, now, ttl⟩ := by
  unfold setCachedData
  exact lookupEntry_upsert_self _ k _

/-- C4: when the cache misses and the network request fails (a thrown fetch
or HTTP error), every entity fetcher returns the typed failure envelope
`{ success: false, data: <empty-shaped default>, error: <message> }` with
exactly the one failed network call; being total functions into the envelope
type, the fetchers let no exception past this boundary. -/
theorem fetcher_error_envelope :
    (∀ (oracle : String → Except String FrostThingsResp) (now : ℤ)
        (c c1 : Cache String CacheVal) (e : String),
      getCachedData c "sensors_basic" now = (none, c1) →
      oracle "/Things?$expand=Locations" = .error e →
      listSensors oracle now c = (⟨false, ⟨[], 0⟩, some e⟩, c1, 1))
    ∧ (∀ (oracle : String → Except String FrostLocsResp) (now : ℤ) (nowIso : String)
        (c c1 : Cache String CacheVal) (e : String),
      getCachedData c "locations" now = (none, c1) →
      oracle "/Locations" = .error e →
      listLocations oracle now nowIso c = (⟨false, ⟨[], 0⟩, some e⟩, c1, 1))
    ∧ (∀ (oracle : String → Except String FrostDsResp) (now : ℤ)
        (c c1 : Cache String CacheVal) (sensorId : ℕ) (e : String),
      getCachedData c ("datastreams_" ++ natToStr sensorId) now = (none, c1) →
      oracle ("/Things(" ++ natToStr sensorId ++ ")/Datastreams") = .error e →
      getSensorDatastreams oracle now c sensorId = (⟨false, ⟨[], sensorId⟩, some e⟩, c1, 1))
    ∧ (∀ (oracle : String → Except String FrostObsResp) (now : ℤ) (nowIso : String)
        (c c1 : Cache String CacheVal) (id limit : ℕ) (s t : Option String) (e : String),
      getCachedData c (obsCacheKey id limit s t) now = (none, c1) →
      oracle (obsQuery id limit s t) = .error e →
      getDatastreamObservations oracle now nowIso c id limit s t
        = (⟨false, ⟨[], id, 0, none⟩, some e⟩, c1, 1)) := by
  refine ⟨?_, ?_, ?_, ?_⟩
  · intro oracle now c c1 e hget horacle
    unfold listSensors
    rw [hget]
    dsimp only
    rw [horacle]
  · intro oracle now nowIso c c1 e hget horacle
    unfold listLocations
    rw [hget]
    dsimp only
    rw [horacle]
  · intro oracle now c c1 sensorId e hget horacle
    unfold getSensorDatastreams
    rw [hget]
    dsimp only
    rw [horacle]
  · intro oracle now nowIso c c1 id limit s t e hget horacle
    unfold getDatastreamObservations
    rw [hget]
    dsimp only
    rw [horacle]

/-- Witness: against an unreachable network and an empty cache, each of the
four fetchers returns its failure envelope with the empty-shaped default,
the error message, and one network call. -/
theorem fetcher_error_envelope_witness :
    listSensors (fun _ => .error "down") 0 [] = (⟨false, ⟨[], 0⟩, some "down"⟩, [], 1)
    ∧ listLocations (fun _ => .error "down") 0 "2024-01-01T00:00:00Z" []
        = (⟨false, ⟨[], 0⟩, some "down"⟩, [], 1)
    ∧ getSensorDatastreams (fun _ => .error "down") 0 [] 3
        = (⟨false, ⟨[], 3⟩, some "down"⟩, [], 1)
    ∧ getDatastreamObservations (fun _ => .error "down") 0 "" [] 7 50 none none
        = (⟨false, ⟨[], 7, 0, none⟩, some "down"⟩, [], 1) := by
  refine ⟨?_, ?_, ?_, ?_⟩
  · exact fetcher_error_envelope.1 _ 0 [] [] "down" rfl rfl
  · exact fetcher_error_envelope.2.1 _ 0 "2024-01-01T00:00:00Z" [] [] "down" rfl rfl
  · exact fetcher_error_envelope.2.2.1 _ 0 [] [] 3 "down" rfl rfl
  · exact fetcher_error_envelope.2.2.2 _ 0 "" [] [] 7 50 none none "down" rfl rfl

/-- C10 counterexample: with an expired entry stored under the very key being
fetched and a failing network, the fetcher returns `success = false` but the
resulting cache is empty — not "exactly as it was before the call", because
`getCachedData` deleted the expired entry during the lookup. -/
theorem fetch_failure_cache_changed_cx :
    (getDatastreamObservations (fun _ => .error "down") 100 ""
        [(obsCacheKey 7 50 none none, ⟨.observationsV ⟨[], 7, 0, none⟩, 0, 1⟩)]
        7 50 none none).1.success = false
    ∧ (getDatastreamObservations (fun _ => .error "down") 100 ""
        [(obsCacheKey 7 50 none none, ⟨.observationsV ⟨[], 7, 0, none⟩, 0, 1⟩)]
        7 50 none none).2.1 = []
    ∧ ([(obsCacheKey 7 50 none none, ⟨.observationsV ⟨[], 7, 0, none⟩, 0, 1⟩)]
        : Cache String CacheVal) ≠ [] := by
  refine ⟨by decide, by decide, by simp⟩

/-- C10 (amended): whenever `getDatastreamObservations` or `listSensors`
returns `{ success: false }`, nothing was stored — the resulting cache is the
original with (at most) the expired entry under the request's own key
removed, that key maps to nothing afterwards, and a subsequent call with the
same arguments issues exactly one fresh network request. -/
theorem fetch_failure_not_cached :
    (∀ (oracle : String → Except String FrostObsResp) (now : ℤ) (nowIso : String)
        (c : Cache String CacheVal) (id limit : ℕ) (s t : Option String),
      (getDatastreamObservations oracle now nowIso c id limit s t).1.success = false →
        (getDatastreamObservations oracle now nowIso c id limit s t).2.1
            = eraseKey c (obsCacheKey id limit s t)
          ∧ lookupEntry (getDatastreamObservations oracle now nowIso c id limit s t).2.1
              (obsCacheKey id limit s t) = none
          ∧ ∀ (now2 : ℤ) (nowIso2 : String),
              (getDatastreamObservations oracle now2 nowIso2
                (getDatastreamObservations oracle now nowIso c id limit s t).2.1
                id limit s t).2.2 = 1)
    ∧ (∀ (oracle : String → Except String FrostThingsResp) (now : ℤ)
        (c : Cache String CacheVal),
      (listSensors oracle now c).1.success = false →
        (listSensors oracle now c).2.1 = eraseKey c "sensors_basic"
          ∧ lookupEntry (listSensors oracle now c).2.1 "sensors_basic" = none
          ∧ ∀ now2 : ℤ, (listSensors oracle now2 (listSensors oracle now c).2.1).2.2 = 1) := by
  constructor
  · intro oracle now nowIso c id limit s t hfail
    unfold getDatastreamObservations at hfail ⊢
    rcases hg : getCachedData c (obsCacheKey id limit s t) now with ⟨hit, c1⟩
    rw [hg] at hfail
    cases hit with
    | some v =>
      dsimp only at hfail
      simp at hfail
    | none =>
      dsimp only at hfail ⊢
      cases ho : oracle (obsQuery id limit s t) with
      | ok resp =>
        rw [ho] at hfail
        dsimp only at hfail
        simp at hfail
      | error e =>
        dsimp only
        have hc1 : c1 = eraseKey c (obsCacheKey id limit s t) :=
          getCachedData_eq_none_snd c _ now c1 hg
        have hlk : lookupEntry c1 (obsCacheKey id limit s t) = none := by
          rw [hc1]
          exact lookupEntry_eraseKey_self c _
        refine ⟨hc1, hlk, ?_⟩
        intro now2 nowIso2
        rw [getCachedData_of_lookup_none c1 _ now2 hlk]
  · intro oracle now c hfail
    unfold listSensors at hfail ⊢
    rcases hg : getCachedData c "sensors_basic" now with ⟨hit, c1⟩
    rw [hg] at hfail
    cases hit with
    | some v =>
      dsimp only at hfail
      simp at hfail
    | none =>
      dsimp only at hfail ⊢
      cases ho : oracle "/Things?$expand=Locations" with
      | ok resp =>
        rw [ho] at hfail
        dsimp only at hfail
        simp at hfail
      | error e =>
        dsimp only
        have hc1 : c1 = eraseKey c "sensors_basic" :=
          getCachedData_eq_none_snd c _ now c1 hg
        have hlk : lookupEntry c1 "sensors_basic" = none := by
          rw [hc1]
          exact lookupEntry_eraseKey_self c _
        refine ⟨hc1, hlk, ?_⟩
        intro now2
        rw [getCachedData_of_lookup_none c1 _ now2 hlk]

/-- Witness: for the concrete failing fetch over a cache holding only an
expired entry under the same key, the resulting cache is the erased one and
an immediately repeated call makes exactly one network request. -/
theorem fetch_failure_not_cached_witness :
    (getDatastreamObservations (fun _ => .error "down") 100 ""
        [(obsCacheKey 7 50 none none, ⟨.observationsV ⟨[], 7, 0, none⟩, 0, 1⟩)]
        7 50 none none).2.1
      = eraseKey [(obsCacheKey 7 50 none none, ⟨.observationsV ⟨[], 7, 0, none⟩, 0, 1⟩)]
          (obsCacheKey 7 50 none none)
    ∧ (getDatastreamObservations (fun _ => .error "down") 0 ""
        (getDatastreamObservations (fun _ => .error "down") 100 ""
          [(obsCacheKey 7 50 none none, ⟨.observationsV ⟨[], 7, 0, none⟩, 0, 1⟩)]
          7 50 none none).2.1
        7 50 none none).2.2 = 1 := by
  have h := fetch_failure_not_cached.1 (fun _ => .error "down") 100 ""
    [(obsCacheKey 7 50 none none, ⟨.observationsV ⟨[], 7, 0, none⟩, 0, 1⟩)]
    7 50 none none (by decide)
  exact ⟨h.1, h.2.2 0 ""⟩

/-! ## Request-signature injectivity (C3) -/

/-- Little-endian value of a digit list. -/
def digitsValLE (ds : List ℕ) : ℕ := ds.foldr (fun d acc => d + 10 * acc) 0

lemma natDigitsRev_val : ∀ (fuel n : ℕ), n ≤ fuel → digitsValLE (natDigitsRev fuel n) = n := by
  intro fuel
  induction fuel with
  | zero => intro n h; interval_cases n; rfl
  | succ fuel ih =>
    intro n h
    cases n with
    | zero => rfl
    | succ m =>
      unfold natDigitsRev digitsValLE
      simp only [List.foldr_cons]
      have hdiv : (m + 1) / 10 ≤ fuel := by omega
      have := ih ((m + 1) / 10) hdiv
      unfold digitsValLE at this
      rw [this]
      omega

lemma natDigitsRev_lt10 : ∀ (fuel n : ℕ), ∀ d ∈ natDigitsRev fuel n, d < 10 := by
  intro fuel
  induction fuel with
  | zero => intro n d hd; simp [natDigitsRev] at hd
  | succ fuel ih =>
    intro n d hd
    cases n with
    | zero => simp [natDigitsRev] at hd
    | succ m =>
      unfold natDigitsRev at hd
      rcases List.mem_cons.mp hd with he | ht
      · omega
      · exact ih _ d ht

lemma digitChar_inj10 : ∀ a < 10, ∀ b < 10, digitChar a = digitChar b → a = b := by decide

lemma digitChar_isDigit : ∀ d < 10, (digitChar d).isDigit = true := by decide

lemma map_digitChar_inj : ∀ (l1 l2 : List ℕ), (∀ d ∈ l1, d < 10) → (∀ d ∈ l2, d < 10) →
    l1.map digitChar = l2.map digitChar → l1 = l2 := by
  intro l1
  induction l1 with
  | nil =>
    intro l2 _ _ h
    cases l2 with
    | nil => rfl
    | cons x xs => simp at h
  | cons y ys ih =>
    intro l2 h1 h2 h
    cases l2 with
    | nil => simp at h
    | cons x xs =>
      simp only [List.map_cons, List.cons.injEq] at h
      have hy := digitChar_inj10 y (h1 y (by simp)) x (h2 x (by simp)) h.1
      rw [hy, ih xs (fun d hd => h1 d (by simp [hd])) (fun d hd => h2 d (by simp [hd])) h.2]

lemma natToStr_inj : ∀ a b : ℕ, natToStr a = natToStr b → a = b := by
  have hzero : ∀ n : ℕ, n ≠ 0 → natToStr n = natToStr 0 → False := by
    intro n hn h
    unfold natToStr at h
    rw [if_neg hn, if_pos rfl] at h
    have hl : (natDigitsRev n n).reverse.map digitChar = ['0'] := congrArg String.toList h
    have hrev : natDigitsRev n n = [(0 : ℕ)] := by
      have hlen : ((natDigitsRev n n).reverse.map digitChar).length = 1 := by rw [hl]; rfl
      rcases hr : (natDigitsRev n n).reverse with _ | ⟨d, ds⟩
      · rw [hr] at hlen; simp at hlen
      · rw [hr] at hlen hl
        cases ds with
        | nil =>
          simp only [List.map_cons, List.map_nil, List.cons.injEq] at hl
          have hd10 : d < 10 := natDigitsRev_lt10 n n d
            (by rw [← List.reverse_reverse (natDigitsRev n n), hr]; simp)
          have : d = 0 := digitChar_inj10 d hd10 0 (by omega) (by simpa using hl.1)
          rw [← List.reverse_reverse (natDigitsRev n n), hr, this]
          rfl
        | cons d2 ds2 => simp at hlen
    have hval := natDigitsRev_val n n (le_refl n)
    rw [hrev] at hval
    simp [digitsValLE] at hval
    exact hn hval.symm
  intro a b h
  by_cases ha : a = 0
  · by_cases hb : b = 0
    · rw [ha, hb]
    · exact absurd (ha ▸ h.symm) (fun hh => hzero b hb hh)
  · by_cases hb : b = 0
    · exact absurd (hb ▸ h) (fun hh => hzero a ha hh)
    · unfold natToStr at h
      rw [if_neg ha, if_neg hb] at h
      have hl := congrArg String.toList h
      have hmap : (natDigitsRev a a).reverse.map digitChar
          = (natDigitsRev b b).reverse.map digitChar := hl
      have hrev := map_digitChar_inj _ _
        (fun d hd => natDigitsRev_lt10 a a d (by simpa using hd))
        (fun d hd => natDigitsRev_lt10 b b d (by simpa using hd)) hmap
      have hdig : natDigitsRev a a = natDigitsRev b b := by
        rw [← List.reverse_reverse (natDigitsRev a a), hrev, List.reverse_reverse]
      have hva := natDigitsRev_val a a (le_refl a)
      have hvb := natDigitsRev_val b b (le_refl b)
      rw [hdig] at hva
      rw [hva] at hvb
      exact hvb

lemma natToStr_chars_digit (n : ℕ) : ∀ ch ∈ (natToStr n).toList, ch.isDigit = true := by
  intro ch hch
  unfold natToStr at hch
  by_cases hn : n = 0
  · rw [if_pos hn] at hch
    simp at hch
    rw [hch]
    rfl
  · rw [if_neg hn] at hch
    have : ch ∈ (natDigitsRev n n).reverse.map digitChar := hch
    rcases List.mem_map.mp this with ⟨d, hd, hde⟩
    have : d < 10 := natDigitsRev_lt10 n n d (by simpa using hd)
    rw [← hde]
    exact digitChar_isDigit d this

lemma natToStr_ne_nil (n : ℕ) : (natToStr n).toList ≠ [] := by
  unfold natToStr
  by_cases hn : n = 0
  · rw [if_pos hn]
    simp
  · rw [if_neg hn]
    cases n with
    | zero => exact absurd rfl hn
    | succ m =>
      show ((natDigitsRev (m + 1) (m + 1)).reverse.map digitChar) ≠ []
      unfold natDigitsRev
      simp

lemma string_eq_of_data_eq (a b : String) (h : a.data = b.data) : a = b := by
  cases a
  cases b
  exact congrArg String.mk h

lemma sep_split : ∀ (a c b d : List Char), '_' ∉ a → '_' ∉ c →
    a ++ '_' :: b = c ++ '_' :: d → a = c ∧ b = d := by
  intro a
  induction a with
  | nil =>
    intro c b d _ hc h
    cases c with
    | nil => simpa using h
    | cons x xs =>
      simp only [List.nil_append, List.cons_append, List.cons.injEq] at h
      exact absurd (by rw [h.1]; exact List.mem_cons_self x xs) hc
  | cons y ys ih =>
    intro c b d ha hc h
    cases c with
    | nil =>
      simp only [List.cons_append, List.nil_append, List.cons.injEq] at h
      exact absurd (by rw [← h.1]; exact List.mem_cons_self y ys) ha
    | cons x xs =>
      simp only [List.cons_append, List.cons.injEq] at h
      have hys : '_' ∉ ys := fun hm => ha (by simp [hm])
      have hxs : '_' ∉ xs := fun hm => hc (by simp [hm])
      rcases ih xs b d hys hxs h.2 with ⟨h1, h2⟩
      exact ⟨by rw [h.1, h1], h2⟩

/-- A well-formed date argument: a nonempty string of digits and hyphens
(the `YYYY-MM-DD` strings the date pickers produce). -/
def isDateStr (v : String) : Prop :=
  v.data ≠ [] ∧ ∀ ch ∈ v.data, ch.isDigit = true ∨ ch = '-'

instance (v : String) : Decidable (isDateStr v) := by
  unfold isDateStr
  infer_instance

lemma isDateStr_no_underscore (v : String) (h : isDateStr v) : '_' ∉ v.data := by
  intro hin
  rcases h.2 '_' hin with hd | hd
  · exact absurd hd (by decide)
  · exact absurd hd (by decide)

lemma isDateStr_ne_empty (v : String) (h : isDateStr v) : v ≠ "" := by
  intro he
  rw [he] at h
  exact h.1 rfl

lemma jsOrStr_no_underscore (o : Option String) (dflt : String)
    (h : ∀ v ∈ o, isDateStr v) (hd : '_' ∉ dflt.data) : '_' ∉ (jsOrStr o dflt).data := by
  cases o with
  | none => exact hd
  | some v =>
    unfold jsOrStr
    dsimp only
    by_cases hv : v = ""
    · rw [if_pos hv]
      exact hd
    · rw [if_neg hv]
      exact isDateStr_no_underscore v (h v rfl)

lemma jsOrStr_date_inj (o1 o2 : Option String) (dflt : String)
    (h1 : ∀ v ∈ o1, isDateStr v) (h2 : ∀ v ∈ o2, isDateStr v) (hd : ¬ isDateStr dflt)
    (he : jsOrStr o1 dflt = jsOrStr o2 dflt) : o1 = o2 := by
  cases o1 with
  | none =>
    cases o2 with
    | none => rfl
    | some v =>
      unfold jsOrStr at he
      dsimp only at he
      rw [if_neg (isDateStr_ne_empty v (h2 v rfl))] at he
      exact absurd (he ▸ h2 v rfl) hd
  | some v =>
    cases o2 with
    | none =>
      unfold jsOrStr at he
      dsimp only at he
      rw [if_neg (isDateStr_ne_empty v (h1 v rfl))] at he
      exact absurd (he.symm ▸ h1 v rfl) hd
    | some w =>
      unfold jsOrStr at he
      dsimp only at he
      rw [if_neg (isDateStr_ne_empty v (h1 v rfl)),
        if_neg (isDateStr_ne_empty w (h2 w rfl))] at he
      rw [he]

lemma obsCacheKey_data (id limit : ℕ) (s t : Option String) :
    (obsCacheKey id limit s t).data =
      ("observations" : String).data ++ '_' :: ((natToStr id).data ++ '_' ::
        ((natToStr limit).data ++ '_' :: ((jsOrStr s "nostart").data ++ '_' ::
          (jsOrStr t "noend").data))) := by
  unfold obsCacheKey
  simp only [String.data_append]
  simp

lemma natToStr_no_underscore (n : ℕ) : '_' ∉ (natToStr n).data := by
  intro hin
  have := natToStr_chars_digit n '_' hin
  exact absurd this (by decide)

/-- C3: the request signature of `getDatastreamObservations` is deterministic
in the endpoint and parameters (it is a function of them), injective on
well-formed arguments — two requests differing in datastream id, limit, or
either optional date bound get different signatures — and after a successful
call an identical call at the same instant answers from the cache with the
same payload and zero network calls. -/
theorem signature_determinism_and_cache :
    (∀ (id1 l1 : ℕ) (s1 t1 : Option String) (id2 l2 : ℕ) (s2 t2 : Option String),
      (∀ v ∈ s1, isDateStr v) → (∀ v ∈ t1, isDateStr v) →
      (∀ v ∈ s2, isDateStr v) → (∀ v ∈ t2, isDateStr v) →
      obsCacheKey id1 l1 s1 t1 = obsCacheKey id2 l2 s2 t2 →
      id1 = id2 ∧ l1 = l2 ∧ s1 = s2 ∧ t1 = t2)
    ∧ (∀ (oracle : String → Except String FrostObsResp) (now : ℤ) (nowIso : String)
        (c : Cache String CacheVal) (id limit : ℕ) (s t : Option String),
      (getDatastreamObservations oracle now nowIso c id limit s t).1.success = true →
      (getDatastreamObservations oracle now nowIso
          (getDatastreamObservations oracle now nowIso c id limit s t).2.1
          id limit s t).1.success = true
      ∧ (getDatastreamObservations oracle now nowIso
          (getDatastreamObservations oracle now nowIso c id limit s t).2.1
          id limit s t).1.data
        = (getDatastreamObservations oracle now nowIso c id limit s t).1.data
      ∧ (getDatastreamObservations oracle now nowIso
          (getDatastreamObservations oracle now nowIso c id limit s t).2.1
          id limit s t).2.2 = 0) := by
  constructor
  · intro id1 l1 s1 t1 id2 l2 s2 t2 hs1 ht1 hs2 ht2 h
    have hd := congrArg String.data h
    rw [obsCacheKey_data, obsCacheKey_data] at hd
    have hd1 := List.append_cancel_left hd
    have hd2 : (natToStr id1).data ++ '_' ::
        ((natToStr l1).data ++ '_' :: ((jsOrStr s1 "nostart").data ++ '_' ::
          (jsOrStr t1 "noend").data))
        = (natToStr id2).data ++ '_' ::
        ((natToStr l2).data ++ '_' :: ((jsOrStr s2 "nostart").data ++ '_' ::
          (jsOrStr t2 "noend").data)) := by
      simpa using hd1
    rcases sep_split _ _ _ _ (natToStr_no_underscore id1) (natToStr_no_underscore id2) hd2
      with ⟨hid, hrest1⟩
    rcases sep_split _ _ _ _ (natToStr_no_underscore l1) (natToStr_no_underscore l2) hrest1
      with ⟨hlim, hrest2⟩
    rcases sep_split _ _ _ _
      (jsOrStr_no_underscore s1 "nostart" hs1 (by decide))
      (jsOrStr_no_underscore s2 "nostart" hs2 (by decide)) hrest2
      with ⟨hsf, htf⟩
    refine ⟨natToStr_inj _ _ (string_eq_of_data_eq _ _ hid),
      natToStr_inj _ _ (string_eq_of_data_eq _ _ hlim),
      jsOrStr_date_inj s1 s2 "nostart" hs1 hs2 (by decide) (string_eq_of_data_eq _ _ hsf),
      jsOrStr_date_inj t1 t2 "noend" ht1 ht2 (by decide) (string_eq_of_data_eq _ _ htf)⟩
  · intro oracle now nowIso c id limit s t h
    unfold getDatastreamObservations at h ⊢
    rcases hg : getCachedData c (obsCacheKey id limit s t) now with ⟨hit, c1⟩
    rw [hg] at h
    cases hit with
    | some v =>
      have hc1 : c1 = c := getCachedData_eq_some_snd c _ now v c1 hg
      dsimp only
      rw [hc1, hg]
      exact ⟨rfl, rfl, rfl⟩
    | none =>
      dsimp only at h ⊢
      cases ho : oracle (obsQuery id limit s t) with
      | error e =>
        rw [ho] at h
        dsimp only at h
        simp at h
      | ok resp =>
        rw [getCachedData_fresh _ _ now _
          (lookupEntry_setCachedData_self c1 _ _ now 60000) (by dsimp only; omega)]
        exact ⟨rfl, rfl, rfl⟩

/-- Witness: identical concrete arguments give the same key back (with the
well-formed date hypotheses discharged), and against a network returning an
empty batch a first successful call makes the identical second call answer
with zero network calls and the same payload. -/
theorem signature_determinism_and_cache_witness :
    ((7 : ℕ) = 7 ∧ (50 : ℕ) = 50
      ∧ (some "2024-01-01" : Option String) = some "2024-01-01"
      ∧ (none : Option String) = none)
    ∧ (getDatastreamObservations (fun _ => .ok ⟨[], none⟩) 0 ""
        (getDatastreamObservations (fun _ => .ok ⟨[], none⟩) 0 "" [] 7 50 none none).2.1
        7 50 none none).1.data
      = (getDatastreamObservations (fun _ => .ok ⟨[], none⟩) 0 "" [] 7 50 none none).1.data
    ∧ (getDatastreamObservations (fun _ => .ok ⟨[], none⟩) 0 ""
        (getDatastreamObservations (fun _ => .ok ⟨[], none⟩) 0 "" [] 7 50 none none).2.1
        7 50 none none).2.2 = 0 := by
  have h2 := signature_determinism_and_cache.2 (fun _ => .ok ⟨[], none⟩) 0 "" [] 7 50
    none none (by decide)
  refine ⟨?_, h2.2.1, h2.2.2⟩
  exact signature_determinism_and_cache.1 7 50 (some "2024-01-01") none 7 50
    (some "2024-01-01") none (by intro v hv; cases hv; decide) (by intro v hv; cases hv)
    (by intro v hv; cases hv; decide) (by intro v hv; cases hv) rfl

/-! ## Progressive loader (`useProgressiveSensorData.ts`) -/

/-- The hook's observable state: the five `useState` values. -/
structure ProgState where
  sensors : List Sensor
  isLoadingBasic : Bool
  isLoadingCounts : Bool
  isComplete : Bool
  error : Option String
deriving DecidableEq

/-- The count-enrichment pass (lines 43-48): replace each sensor's
`total_datastreams` with `counts[sensor.id] || 0`. -/
def enrich (counts : List (ℕ × ℕ)) (s : Sensor) : Sensor :=
  { s with total_datastreams :=
      match counts.lookup s.id with
      | some n => n
      | none => 0 }

/-- The successive states of one successful `fetchBasicSensors` session
(lines 24-51), in the order the `set...` calls commit them: starting from
the hook's state (loading, not complete), clear the error, mark basic
loading, store the coarse list, clear basic loading, mark count loading,
store the enriched list, clear count loading, mark complete. -/
def successTrace (prev : List Sensor) (basic : List Sensor)
    (counts : List (ℕ × ℕ)) : List ProgState :=
  let s0 : ProgState := ⟨prev, true, false, false, none⟩
  let s1 := { s0 with error := none }
  let s2 := { s1 with isLoadingBasic := true }
  let s3 := { s2 with sensors := basic }
  let s4 := { s3 with isLoadingBasic := false }
  let s5 := { s4 with isLoadingCounts := true }
  let s6 := { s5 with sensors := s5.sensors.map (enrich counts) }
  let s7 := { s6 with isLoadingCounts := false }
  let s8 := { s7 with isComplete := true }
  [s0, s1, s2, s3, s4, s5, s6, s7, s8]

/-- C5: in every successful progressive-loading session the coarse list is
observable strictly before completion — `isLoadingBasic` is true through the
first four states and false from the fifth on, while `isComplete` is false
everywhere before the final ninth state and true there; at the moment the
coarse list first becomes observable its sensors are exactly the decoded
basic list, every count field holding the placeholder 0. -/
theorem progressive_basic_before_complete (prev : List Sensor)
    (things : List FrostThing) (counts : List (ℕ × ℕ)) :
    (∀ st ∈ (successTrace prev (decodeThings things) counts).take 4,
      st.isLoadingBasic = true)
    ∧ (∀ st ∈ (successTrace prev (decodeThings things) counts).drop 4,
      st.isLoadingBasic = false)
    ∧ (∀ st ∈ (successTrace prev (decodeThings things) counts).take 8,
      st.isComplete = false)
    ∧ (∃ st, (successTrace prev (decodeThings things) counts).get? 8 = some st
        ∧ st.isComplete = true ∧ st.isLoadingBasic = false)
    ∧ (∃ st, (successTrace prev (decodeThings things) counts).get? 4 = some st
        ∧ st.isLoadingBasic = false ∧ st.isComplete = false
        ∧ st.sensors = decodeThings things
        ∧ ∀ sr ∈ st.sensors, sr.total_datastreams = 0) := by
  refine ⟨?_, ?_, ?_, ?_, ?_⟩
  · intro st hst
    simp only [successTrace, List.take, List.mem_cons, List.not_mem_nil, or_false] at hst
    rcases hst with rfl | rfl | rfl | rfl
    all_goals rfl
  · intro st hst
    simp only [successTrace, List.drop, List.mem_cons, List.not_mem_nil, or_false] at hst
    rcases hst with rfl | rfl | rfl | rfl | rfl
    all_goals rfl
  · intro st hst
    simp only [successTrace, List.take, List.mem_cons, List.not_mem_nil, or_false] at hst
    rcases hst with rfl | rfl | rfl | rfl | rfl | rfl | rfl | rfl
    all_goals rfl
  · exact ⟨_, rfl, rfl, rfl⟩
  · refine ⟨_, rfl, rfl, rfl, rfl, ?_⟩
    intro sr hsr
    rcases List.mem_map.mp hsr with ⟨thing, _, hde⟩
    rw [← hde]
    rfl

/-- Witness: for a concrete session (empty previous list, empty response,
empty counts), the initial state — still inside the first eight trace
states — has `isComplete = false`, the fifth state shows the coarse list
with placeholder counts before completion, and the ninth is the completed
one. -/
theorem progressive_basic_before_complete_witness :
    (⟨[], true, false, false, none⟩ : ProgState).isComplete = false
    ∧ (∃ st, (successTrace [] (decodeThings []) []).get? 4 = some st
        ∧ st.isLoadingBasic = false ∧ st.isComplete = false
        ∧ st.sensors = decodeThings []
        ∧ ∀ sr ∈ st.sensors, sr.total_datastreams = 0)
    ∧ (∃ st, (successTrace [] (decodeThings []) []).get? 8 = some st
        ∧ st.isComplete = true ∧ st.isLoadingBasic = false) := by
  have h := progressive_basic_before_complete [] [] []
  exact ⟨h.2.2.1 ⟨[], true, false, false, none⟩ (by decide), h.2.2.2.2, h.2.2.2.1⟩

/-! ## Batch count resolver (`useSensorData.ts` lines 942-958 and 995-1031) -/

/-- The cache key of a sensor's datastream count. -/
def countCacheKey (id : ℕ) : String := "datastream_count_" ++ natToStr id

/-- The count query of `getSensorDatastreamCount`. -/
def countQuery (id : ℕ) : String :=
  "/Things(" ++ natToStr id ++ ")/Datastreams?$count=true&$top=0"

/-- `getSensorDatastreamCount` (lines 942-958): answer from the cache when
possible; otherwise fetch the `@iot.count` (defaulting 0), cache it for 5
minutes and return it; a failed request degrades to 0 without caching. -/
def getSensorDatastreamCount (oracle : String → Except String (Option ℕ)) (now : ℤ)
    (c : Cache String CacheVal) (id : ℕ) : ℕ × Cache String CacheVal × ℕ :=
  match getCachedData c (countCacheKey id) now with
  | (some v, c1) => (asCount v, c1, 0)
  | (none, c1) =>
    match oracle (countQuery id) with
    | .error _ => (0, c1, 1)
    | .ok cnt =>
      (cnt.getD 0, setCachedData c1 (countCacheKey id) (.countV (cnt.getD 0)) now 300000, 1)

/-- Fixed-size chunking with explicit fuel (any fuel at least the list's
length is enough): `take 10` then recurse on `drop 10`, as the chunking loop
of `getBatchDatastreamCounts` (lines 1013-1016) does. -/
def chunksGo {α : Type} : ℕ → List α → List (List α)
  | 0, _ => []
  | _ + 1, [] => []
  | fuel + 1, x :: xs => ((x :: xs).take 10) :: chunksGo fuel ((x :: xs).drop 10)

/-- The chunks of at most 10 ids. -/
def chunks10 {α : Type} (l : List α) : List (List α) := chunksGo l.length l

/-- Phase one of a chunk: one call's synchronous cache check (all the
chunk's calls run theirs before any response settles). -/
def chunkStartStep (now : ℤ) (st : List (ℕ × Option ℕ) × Cache String CacheVal)
    (id : ℕ) : List (ℕ × Option ℕ) × Cache String CacheVal :=
  match getCachedData st.2 (countCacheKey id) now with
  | (hit, c1) => (st.1 ++ [(id, hit.map asCount)], c1)

/-- Phase two of a chunk: one call's settlement — a cache hit keeps its
count, a miss resolves over the network and caches on success, and a per-id
failure contributes the count 0 without caching. -/
def chunkFinishStep (oracle : String → Except String (Option ℕ)) (now : ℤ)
    (st : List (ℕ × ℕ) × Cache String CacheVal) (p : ℕ × Option ℕ) :
    List (ℕ × ℕ) × Cache String CacheVal :=
  match p.2 with
  | some n => (st.1 ++ [(p.1, n)], st.2)
  | none =>
    match oracle (countQuery p.1) with
    | .error _ => (st.1 ++ [(p.1, 0)], st.2)
    | .ok cnt =>
      (st.1 ++ [(p.1, cnt.getD 0)],
        setCachedData st.2 (countCacheKey p.1) (.countV (cnt.getD 0)) now 300000)

/-- One chunk of the batch resolver: phase one for every id, then phase two
for every started call. -/
def processChunk (oracle : String → Except String (Option ℕ)) (now : ℤ)
    (c : Cache String CacheVal) (chunk : List ℕ) :
    List (ℕ × ℕ) × Cache String CacheVal :=
  let s1 := chunk.foldl (chunkStartStep now) ([], c)
  s1.1.foldl (chunkFinishStep oracle now) ([], s1.2)

/-- The cache-partition step of `getBatchDatastreamCounts`: a cached id is
answered immediately, the rest are collected for chunked resolution. -/
def partitionStep (now : ℤ)
    (st : List (ℕ × ℕ) × List ℕ × Cache String CacheVal) (id : ℕ) :
    List (ℕ × ℕ) × List ℕ × Cache String CacheVal :=
  match getCachedData st.2.2 (countCacheKey id) now with
  | (some v, c1) => (st.1 ++ [(id, asCount v)], st.2.1, c1)
  | (none, c1) => (st.1, st.2.1 ++ [id], c1)

/-- One sequential chunk of the resolution loop. -/
def batchChunkStep (oracle : String → Except String (Option ℕ)) (now : ℤ)
    (st : List (ℕ × ℕ) × Cache String CacheVal) (chunk : List ℕ) :
    List (ℕ × ℕ) × Cache String CacheVal :=
  let r := processChunk oracle now st.2 chunk
  (st.1 ++ r.1, r.2)

/-- `getBatchDatastreamCounts` (lines 995-1031): partition the ids into
cache-answered ones and unresolved ones, then resolve the unresolved ids in
sequential chunks of at most 10, each chunk's requests together.  The
mapping is an association list in resolution order. -/
def getBatchDatastreamCounts (oracle : String → Except String (Option ℕ)) (now : ℤ)
    (c : Cache String CacheVal) (sensorIds : List ℕ) :
    List (ℕ × ℕ) × Cache String CacheVal :=
  let part := sensorIds.foldl (partitionStep now) ([], [], c)
  if part.2.1.isEmpty then (part.1, part.2.2)
  else (chunks10 part.2.1).foldl (batchChunkStep oracle now) (part.1, part.2.2)

lemma chunksGo_spec {α : Type} : ∀ (fuel : ℕ) (l : List α), l.length ≤ fuel →
    (chunksGo fuel l).length = (l.length + 9) / 10
    ∧ (∀ ch ∈ chunksGo fuel l, ch.length ≤ 10)
    ∧ (chunksGo fuel l).flatten = l := by
  intro fuel
  induction fuel with
  | zero =>
    intro l h
    have hl : l = [] := List.length_eq_zero.mp (Nat.le_zero.mp h)
    subst hl
    exact ⟨by simp [chunksGo], by intro ch hch; simp [chunksGo] at hch, rfl⟩
  | succ fuel ih =>
    intro l h
    cases l with
    | nil => exact ⟨by simp [chunksGo], by intro ch hch; simp [chunksGo] at hch, rfl⟩
    | cons x xs =>
      unfold chunksGo
      have hdl : ((x :: xs).drop 10).length ≤ fuel := by
        rw [List.length_drop]
        simp only [List.length_cons] at h ⊢
        omega
      rcases ih ((x :: xs).drop 10) hdl with ⟨h1, h2, h3⟩
      refine ⟨?_, ?_, ?_⟩
      · rw [List.length_cons, h1, List.length_drop]
        simp only [List.length_cons]
        omega
      · intro ch hch
        rcases List.mem_cons.mp hch with he | ht
        · rw [he, List.length_take]
          omega
        · exact h2 ch ht
      · rw [List.flatten_cons, h3]
        exact List.take_append_drop 10 (x :: xs)

lemma chunks10_spec {α : Type} (l : List α) :
    (chunks10 l).length = (l.length + 9) / 10
    ∧ (∀ ch ∈ chunks10 l, ch.length ≤ 10)
    ∧ (chunks10 l).flatten = l :=
  chunksGo_spec l.length l (le_refl _)

lemma countCacheKey_inj (a b : ℕ) (h : countCacheKey a = countCacheKey b) : a = b := by
  unfold countCacheKey at h
  have hd := congrArg String.data h
  rw [String.data_append, String.data_append] at hd
  exact natToStr_inj a b (string_eq_of_data_eq _ _ (List.append_cancel_left hd))

lemma getCachedData_snd_cases {κ α : Type} [DecidableEq κ] (c : Cache κ α) (k : κ)
    (now : ℤ) : (getCachedData c k now).2 = c ∨ (getCachedData c k now).2 = eraseKey c k := by
  unfold getCachedData
  cases lookupEntry c k with
  | none => exact Or.inr rfl
  | some e =>
    dsimp only
    split
    · exact Or.inl rfl
    · exact Or.inr rfl

lemma keys_getCachedData_subset {κ α : Type} [DecidableEq κ] (c : Cache κ α) (k k' : κ)
    (now : ℤ) (h : k' ∈ cacheKeys ((getCachedData c k now).2)) : k' ∈ cacheKeys c := by
  rcases getCachedData_snd_cases c k now with he | he
  · rwa [he] at h
  · rw [he] at h
    rcases List.mem_map.mp h with ⟨p, hp, hpk⟩
    exact List.mem_map.mpr ⟨p, List.mem_of_mem_filter hp, hpk⟩

lemma partition_covers (now : ℤ) : ∀ (ids : List ℕ)
    (st : List (ℕ × ℕ) × List ℕ × Cache String CacheVal),
    (∃ tl, (ids.foldl (partitionStep now) st).1 = st.1 ++ tl)
    ∧ (∃ tl, (ids.foldl (partitionStep now) st).2.1 = st.2.1 ++ tl)
    ∧ ∀ id ∈ ids, (∃ n, (id, n) ∈ (ids.foldl (partitionStep now) st).1)
        ∨ id ∈ (ids.foldl (partitionStep now) st).2.1 := by
  intro ids
  induction ids with
  | nil =>
    intro st
    exact ⟨⟨[], by simp⟩, ⟨[], by simp⟩, by simp⟩
  | cons id ids ih =>
    intro st
    rw [List.foldl_cons]
    rcases ih (partitionStep now st id) with ⟨⟨tl1, h1⟩, ⟨tl2, h2⟩, h3⟩
    have hstep : (∃ a, (partitionStep now st id).1 = st.1 ++ a)
        ∧ (∃ a, (partitionStep now st id).2.1 = st.2.1 ++ a)
        ∧ ((∃ n, (id, n) ∈ (partitionStep now st id).1)
            ∨ id ∈ (partitionStep now st id).2.1) := by
      unfold partitionStep
      rcases hg : getCachedData st.2.2 (countCacheKey id) now with ⟨hit, c1⟩
      cases hit with
      | some v => exact ⟨⟨[(id, asCount v)], rfl⟩, ⟨[], by simp⟩, Or.inl ⟨asCount v, by simp⟩⟩
      | none => exact ⟨⟨[], by simp⟩, ⟨[id], rfl⟩, Or.inr (by simp)⟩
    rcases hstep with ⟨⟨a1, ha1⟩, ⟨a2, ha2⟩, hcov⟩
    refine ⟨⟨a1 ++ tl1, by rw [h1, ha1, List.append_assoc]⟩,
      ⟨a2 ++ tl2, by rw [h2, ha2, List.append_assoc]⟩, ?_⟩
    intro j hj
    rcases List.mem_cons.mp hj with rfl | hjt
    · rcases hcov with ⟨n, hn⟩ | hm
      · exact Or.inl ⟨n, by rw [h1]; exact List.mem_append_left _ hn⟩
      · exact Or.inr (by rw [h2]; exact List.mem_append_left _ hm)
    · exact h3 j hjt

lemma phase1_covers (now : ℤ) : ∀ (chunk : List ℕ)
    (st : List (ℕ × Option ℕ) × Cache String CacheVal),
    (∃ tl, (chunk.foldl (chunkStartStep now) st).1 = st.1 ++ tl)
    ∧ ∀ id ∈ chunk, ∃ o, (id, o) ∈ (chunk.foldl (chunkStartStep now) st).1 := by
  intro chunk
  induction chunk with
  | nil => intro st; exact ⟨⟨[], by simp⟩, by simp⟩
  | cons id chunk ih =>
    intro st
    rw [List.foldl_cons]
    rcases ih (chunkStartStep now st id) with ⟨⟨tl1, h1⟩, h2⟩
    have hstep : ∃ o, (chunkStartStep now st id).1 = st.1 ++ [(id, o)] := by
      unfold chunkStartStep
      rcases hg : getCachedData st.2 (countCacheKey id) now with ⟨hit, c1⟩
      exact ⟨hit.map asCount, rfl⟩
    rcases hstep with ⟨o, ho⟩
    refine ⟨⟨[(id, o)] ++ tl1, by rw [h1, ho, List.append_assoc]⟩, ?_⟩
    intro j hj
    rcases List.mem_cons.mp hj with rfl | hjt
    · exact ⟨o, by rw [h1, ho]; exact List.mem_append_left _ (by simp)⟩
    · exact h2 j hjt

lemma phase2_covers (oracle : String → Except String (Option ℕ)) (now : ℤ) :
    ∀ (ps : List (ℕ × Option ℕ)) (st : List (ℕ × ℕ) × Cache String CacheVal),
    (∃ tl, (ps.foldl (chunkFinishStep oracle now) st).1 = st.1 ++ tl)
    ∧ ∀ p ∈ ps, ∃ n, (p.1, n) ∈ (ps.foldl (chunkFinishStep oracle now) st).1 := by
  intro ps
  induction ps with
  | nil => intro st; exact ⟨⟨[], by simp⟩, by simp⟩
  | cons p ps ih =>
    intro st
    rw [List.foldl_cons]
    rcases ih (chunkFinishStep oracle now st p) with ⟨⟨tl1, h1⟩, h2⟩
    have hstep : ∃ n, (chunkFinishStep oracle now st p).1 = st.1 ++ [(p.1, n)] := by
      unfold chunkFinishStep
      cases p.2 with
      | some n => exact ⟨n, rfl⟩
      | none =>
        cases oracle (countQuery p.1) with
        | error e => exact ⟨0, rfl⟩
        | ok cnt => exact ⟨cnt.getD 0, rfl⟩
    rcases hstep with ⟨n, hn⟩
    refine ⟨⟨[(p.1, n)] ++ tl1, by rw [h1, hn, List.append_assoc]⟩, ?_⟩
    intro q hq
    rcases List.mem_cons.mp hq with rfl | hqt
    · exact ⟨n, by rw [h1, hn]; exact List.mem_append_left _ (by simp)⟩
    · exact h2 q hqt

lemma processChunk_covers (oracle : String → Except String (Option ℕ)) (now : ℤ)
    (c : Cache String CacheVal) (chunk : List ℕ) :
    ∀ id ∈ chunk, ∃ n, (id, n) ∈ (processChunk oracle now c chunk).1 := by
  intro id hid
  unfold processChunk
  rcases phase1_covers now chunk ([], c) with ⟨_, hsc⟩
  rcases hsc id hid with ⟨o, ho⟩
  rcases phase2_covers oracle now (chunk.foldl (chunkStartStep now) ([], c)).1
    ([], (chunk.foldl (chunkStartStep now) ([], c)).2) with ⟨_, hfc⟩
  exact hfc (id, o) ho

lemma batch_fold_covers (oracle : String → Except String (Option ℕ)) (now : ℤ) :
    ∀ (chs : List (List ℕ)) (st : List (ℕ × ℕ) × Cache String CacheVal),
    (∃ tl, (chs.foldl (batchChunkStep oracle now) st).1 = st.1 ++ tl)
    ∧ ∀ ch ∈ chs, ∀ id ∈ ch, ∃ n,
        (id, n) ∈ (chs.foldl (batchChunkStep oracle now) st).1 := by
  intro chs
  induction chs with
  | nil => intro st; exact ⟨⟨[], by simp⟩, by simp⟩
  | cons ch chs ih =>
    intro st
    rw [List.foldl_cons]
    rcases ih (batchChunkStep oracle now st ch) with ⟨⟨tl1, h1⟩, h2⟩
    have hstep : (batchChunkStep oracle now st ch).1
        = st.1 ++ (processChunk oracle now st.2 ch).1 := rfl
    refine ⟨⟨(processChunk oracle now st.2 ch).1 ++ tl1,
      by rw [h1, hstep, List.append_assoc]⟩, ?_⟩
    intro ch2 hch2 id hid
    rcases List.mem_cons.mp hch2 with rfl | hcht
    · rcases processChunk_covers oracle now st.2 ch2 id hid with ⟨n, hn⟩
      exact ⟨n, by rw [h1, hstep]; exact List.mem_append_left _ (List.mem_append_right _ hn)⟩
    · exact h2 ch2 hcht id hid

lemma getBatchDatastreamCounts_covers (oracle : String → Except String (Option ℕ))
    (now : ℤ) (c : Cache String CacheVal) (sensorIds : List ℕ) :
    ∀ id ∈ sensorIds, ∃ n, (id, n) ∈ (getBatchDatastreamCounts oracle now c sensorIds).1 := by
  intro id hid
  unfold getBatchDatastreamCounts
  set part := sensorIds.foldl (partitionStep now) ([], [], c) with hpart
  rcases partition_covers now sensorIds ([], [], c) with ⟨_, _, hcov⟩
  rw [← hpart] at hcov
  rcases hcov id hid with ⟨n, hn⟩ | hm
  · by_cases he : part.2.1.isEmpty
    · rw [if_pos he]
      exact ⟨n, hn⟩
    · rw [if_neg he]
      rcases batch_fold_covers oracle now (chunks10 part.2.1) (part.1, part.2.2)
        with ⟨⟨tl, htl⟩, _⟩
      exact ⟨n, by rw [htl]; exact List.mem_append_left _ hn⟩
  · have hne : ¬ part.2.1.isEmpty = true := by
      intro he
      rw [List.isEmpty_iff.mp he] at hm
      simp at hm
    rw [if_neg hne]
    have hj : id ∈ (chunks10 part.2.1).flatten := by
      rw [(chunks10_spec part.2.1).2.2]
      exact hm
    rcases List.mem_flatten.mp hj with ⟨ch, hch, hidch⟩
    exact (batch_fold_covers oracle now (chunks10 part.2.1) (part.1, part.2.2)).2
      ch hch id hidch

lemma partitionStep_snd (now : ℤ) (st : List (ℕ × ℕ) × List ℕ × Cache String CacheVal)
    (j : ℕ) : (partitionStep now st j).2.2 = (getCachedData st.2.2 (countCacheKey j) now).2 := by
  unfold partitionStep
  rcases hg : getCachedData st.2.2 (countCacheKey j) now with ⟨hit, c1⟩
  cases hit <;> rfl

lemma chunkStartStep_snd (now : ℤ) (st : List (ℕ × Option ℕ) × Cache String CacheVal)
    (j : ℕ) : (chunkStartStep now st j).2 = (getCachedData st.2 (countCacheKey j) now).2 := by
  unfold chunkStartStep
  rcases hg : getCachedData st.2 (countCacheKey j) now with ⟨hit, c1⟩
  rfl

lemma partition_absent (now : ℤ) (id : ℕ) : ∀ (ids : List ℕ)
    (st : List (ℕ × ℕ) × List ℕ × Cache String CacheVal),
    countCacheKey id ∉ cacheKeys st.2.2 →
    countCacheKey id ∉ cacheKeys (ids.foldl (partitionStep now) st).2.2
    ∧ (id ∈ ids → id ∈ (ids.foldl (partitionStep now) st).2.1) := by
  intro ids
  induction ids with
  | nil => intro st h; exact ⟨h, by simp⟩
  | cons j ids ih =>
    intro st habs
    rw [List.foldl_cons]
    have habs' : countCacheKey id ∉ cacheKeys (partitionStep now st j).2.2 := by
      rw [partitionStep_snd]
      exact fun hm => habs (keys_getCachedData_subset _ _ _ now hm)
    rcases ih (partitionStep now st j) habs' with ⟨H1, H2⟩
    refine ⟨H1, ?_⟩
    intro hmem
    rcases List.mem_cons.mp hmem with rfl | hmt
    · have hnone : getCachedData st.2.2 (countCacheKey id) now
          = (none, eraseKey st.2.2 (countCacheKey id)) :=
        getCachedData_of_lookup_none _ _ now (lookupEntry_eq_none_of_not_mem _ _ habs)
      have hstep : (partitionStep now st id).2.1 = st.2.1 ++ [id] := by
        unfold partitionStep
        rw [hnone]
      rcases (partition_covers now ids (partitionStep now st id)).2.1 with ⟨tl, htl⟩
      rw [htl, hstep]
      exact List.mem_append_left _ (List.mem_append_right _ (by simp))
    · exact H2 hmt

lemma phase1_absent (now : ℤ) (id : ℕ) : ∀ (chunk : List ℕ)
    (st : List (ℕ × Option ℕ) × Cache String CacheVal),
    countCacheKey id ∉ cacheKeys st.2 →
    countCacheKey id ∉ cacheKeys (chunk.foldl (chunkStartStep now) st).2
    ∧ (id ∈ chunk → (id, none) ∈ (chunk.foldl (chunkStartStep now) st).1) := by
  intro chunk
  induction chunk with
  | nil => intro st h; exact ⟨h, by simp⟩
  | cons j chunk ih =>
    intro st habs
    rw [List.foldl_cons]
    have habs' : countCacheKey id ∉ cacheKeys (chunkStartStep now st j).2 := by
      rw [chunkStartStep_snd]
      exact fun hm => habs (keys_getCachedData_subset _ _ _ now hm)
    rcases ih (chunkStartStep now st j) habs' with ⟨H1, H2⟩
    refine ⟨H1, ?_⟩
    intro hmem
    rcases List.mem_cons.mp hmem with rfl | hmt
    · have hnone : getCachedData st.2 (countCacheKey id) now
          = (none, eraseKey st.2 (countCacheKey id)) :=
        getCachedData_of_lookup_none _ _ now (lookupEntry_eq_none_of_not_mem _ _ habs)
      have hstep : (chunkStartStep now st id).1 = st.1 ++ [(id, none)] := by
        unfold chunkStartStep
        rw [hnone]
        rfl
      rcases (phase1_covers now chunk (chunkStartStep now st id)).1 with ⟨tl, htl⟩
      rw [htl, hstep]
      exact List.mem_append_left _ (List.mem_append_right _ (by simp))
    · exact H2 hmt

lemma phase2_absent (oracle : String → Except String (Option ℕ)) (now : ℤ) (id : ℕ)
    (msg : String) (horacle : oracle (countQuery id) = .error msg) :
    ∀ (ps : List (ℕ × Option ℕ)) (st : List (ℕ × ℕ) × Cache String CacheVal),
    countCacheKey id ∉ cacheKeys st.2 →
    countCacheKey id ∉ cacheKeys (ps.foldl (chunkFinishStep oracle now) st).2
    ∧ ((id, none) ∈ ps → (id, 0) ∈ (ps.foldl (chunkFinishStep oracle now) st).1) := by
  intro ps
  induction ps with
  | nil => intro st h; exact ⟨h, by simp⟩
  | cons p ps ih =>
    intro st habs
    rw [List.foldl_cons]
    have habs' : countCacheKey id ∉ cacheKeys (chunkFinishStep oracle now st p).2 := by
      unfold chunkFinishStep
      cases hp2 : p.2 with
      | some n => exact habs
      | none =>
        cases ho : oracle (countQuery p.1) with
        | error e => exact habs
        | ok cnt =>
          dsimp only
          intro hm
          rcases cacheKeys_setCachedData_subset st.2 (countCacheKey p.1) (countCacheKey id)
            _ now 300000 hm with he | hmem
          · have : p.1 = id := countCacheKey_inj p.1 id he.symm
            rw [this, horacle] at ho
            exact Except.noConfusion ho
          · exact habs hmem
    rcases ih (chunkFinishStep oracle now st p) habs' with ⟨H1, H2⟩
    refine ⟨H1, ?_⟩
    intro hmem
    rcases List.mem_cons.mp hmem with he | hmt
    · have hstep : (chunkFinishStep oracle now st p).1 = st.1 ++ [(id, 0)] := by
        unfold chunkFinishStep
        rw [← he]
        dsimp only
        rw [horacle]
      rcases (phase2_covers oracle now ps (chunkFinishStep oracle now st p)).1 with ⟨tl, htl⟩
      rw [htl, hstep]
      exact List.mem_append_left _ (List.mem_append_right _ (by simp))
    · exact H2 hmt

lemma processChunk_absent (oracle : String → Except String (Option ℕ)) (now : ℤ) (id : ℕ)
    (msg : String) (horacle : oracle (countQuery id) = .error msg)
    (chunk : List ℕ) (c : Cache String CacheVal)
    (habs : countCacheKey id ∉ cacheKeys c) :
    countCacheKey id ∉ cacheKeys (processChunk oracle now c chunk).2
    ∧ (id ∈ chunk → (id, 0) ∈ (processChunk oracle now c chunk).1) := by
  unfold processChunk
  rcases phase1_absent now id chunk ([], c) habs with ⟨h1abs, h1mem⟩
  rcases phase2_absent oracle now id msg horacle
    (chunk.foldl (chunkStartStep now) ([], c)).1
    ([], (chunk.foldl (chunkStartStep now) ([], c)).2) h1abs with ⟨h2abs, h2mem⟩
  exact ⟨h2abs, fun hid => h2mem (h1mem hid)⟩

lemma batch_fold_absent (oracle : String → Except String (Option ℕ)) (now : ℤ) (id : ℕ)
    (msg : String) (horacle : oracle (countQuery id) = .error msg) :
    ∀ (chs : List (List ℕ)) (st : List (ℕ × ℕ) × Cache String CacheVal),
    countCacheKey id ∉ cacheKeys st.2 →
    (∃ ch ∈ chs, id ∈ ch) →
    (id, 0) ∈ (chs.foldl (batchChunkStep oracle now) st).1 := by
  intro chs
  induction chs with
  | nil => intro st _ hex; simp at hex
  | cons ch chs ih =>
    intro st habs hex
    rw [List.foldl_cons]
    have hstep2 : (batchChunkStep oracle now st ch).2 = (processChunk oracle now st.2 ch).2 := rfl
    have hstep1 : (batchChunkStep oracle now st ch).1
        = st.1 ++ (processChunk oracle now st.2 ch).1 := rfl
    rcases processChunk_absent oracle now id msg horacle ch st.2 habs with ⟨habs', hmem'⟩
    rcases hex with ⟨ch2, hch2, hidch2⟩
    rcases List.mem_cons.mp hch2 with rfl | hcht
    · rcases (batch_fold_covers oracle now chs (batchChunkStep oracle now st ch2)).1
        with ⟨tl, htl⟩
      rw [htl, hstep1]
      exact List.mem_append_left _ (List.mem_append_right _ (hmem' hidch2))
    · exact ih (batchChunkStep oracle now st ch) (hstep2 ▸ habs') ⟨ch2, hcht, hidch2⟩

lemma getBatchDatastreamCounts_fail_zero (oracle : String → Except String (Option ℕ))
    (now : ℤ) (c : Cache String CacheVal) (sensorIds : List ℕ) (id : ℕ) (msg : String)
    (hid : id ∈ sensorIds) (habs : countCacheKey id ∉ cacheKeys c)
    (horacle : oracle (countQuery id) = .error msg) :
    (id, 0) ∈ (getBatchDatastreamCounts oracle now c sensorIds).1 := by
  unfold getBatchDatastreamCounts
  set part := sensorIds.foldl (partitionStep now) ([], [], c) with hpart
  rcases partition_absent now id sensorIds ([], [], c) habs with ⟨pabs, pmem⟩
  rw [← hpart] at pabs pmem
  have hun : id ∈ part.2.1 := pmem hid
  have hne : ¬ part.2.1.isEmpty = true := by
    intro he
    rw [List.isEmpty_iff.mp he] at hun
    simp at hun
  rw [if_neg hne]
  have hj : id ∈ (chunks10 part.2.1).flatten := by
    rw [(chunks10_spec part.2.1).2.2]
    exact hun
  rcases List.mem_flatten.mp hj with ⟨ch, hch, hidch⟩
  exact batch_fold_absent oracle now id msg horacle (chunks10 part.2.1)
    (part.1, part.2.2) pabs ⟨ch, hch, hidch⟩

/-- C6: the ids not answered from the cache are split into `ceil(N/10)`
sequential chunks of at most 10 ids whose concatenation is exactly the
unresolved list (each chunk's requests are issued together, chunk after
chunk); the returned mapping carries an entry for every input id; and an id
whose own resolution fails maps to 0 instead of failing the batch. -/
theorem batch_counts_complete :
    (∀ (l : List ℕ), (chunks10 l).length = (l.length + 9) / 10
      ∧ (∀ ch ∈ chunks10 l, ch.length ≤ 10) ∧ (chunks10 l).flatten = l)
    ∧ (∀ (oracle : String → Except String (Option ℕ)) (now : ℤ)
        (c : Cache String CacheVal) (sensorIds : List ℕ),
        ∀ id ∈ sensorIds, ∃ n, (id, n) ∈ (getBatchDatastreamCounts oracle now c sensorIds).1)
    ∧ (∀ (oracle : String → Except String (Option ℕ)) (now : ℤ)
        (c : Cache String CacheVal) (sensorIds : List ℕ) (id : ℕ) (msg : String),
        id ∈ sensorIds → countCacheKey id ∉ cacheKeys c →
        oracle (countQuery id) = .error msg →
        (id, 0) ∈ (getBatchDatastreamCounts oracle now c sensorIds).1) :=
  ⟨chunks10_spec, getBatchDatastreamCounts_covers, getBatchDatastreamCounts_fail_zero⟩

/-- Witness: 25 ids chunk into 3 waves (the spec's own test), a batch of
three uncached ids gets an entry for each id, and with the network down an
id's entry degrades to the count 0. -/
theorem batch_counts_complete_witness :
    (chunks10 (List.range 25)).length = 3
    ∧ (∃ n, (2, n) ∈ (getBatchDatastreamCounts (fun _ => .error "down") 0 [] [1, 2, 3]).1)
    ∧ (1, 0) ∈ (getBatchDatastreamCounts (fun _ => .error "down") 0 [] [1, 2, 3]).1 := by
  refine ⟨?_, ?_, ?_⟩
  · rw [(batch_counts_complete.1 (List.range 25)).1]
    simp
  · exact batch_counts_complete.2.1 (fun _ => .error "down") 0 [] [1, 2, 3] 2 (by decide)
  · exact batch_counts_complete.2.2 (fun _ => .error "down") 0 [] [1, 2, 3] 1 "down"
      (by decide) (by simp [cacheKeys]) rfl
